import Mathlib

/-
  Verification development for the bpmn process engine
  (token-flow state machine, gateways, history, timers, REST idempotency).

  Shallow embedding conventions:
  - JavaScript strings are Lean String values; character classes are modelled
    by their Unicode code points.
  - JavaScript objects used as maps are association lists List (String, v);
    object keys are unique, which appears as a Nodup hypothesis where needed.
  - Timestamps (Date.now()) are Nat (epoch milliseconds); the JS falsy check
    on a number corresponds to the value 0.
  - Callback-passing control flow is flattened into pure functions; where the
    claim is about ordering of effects the functions produce explicit traces.
-/

namespace Bpmn

/-! ## handler.js: mapName2HandlerName and handler lookup -/

/-- Code points of the character class in the regex of mapName2HandlerName
(handler.js line 25), in the order written there. The at-sign (64) occurs
twice in the regex source. -/
def replacedCodePoints : List Nat :=
  [58, 33, 96, 126, 94, 64, 42, 35, 162, 172, 231, 63, 166, 124, 38, 59,
   37, 64, 34, 60, 62, 40, 41, 123, 125, 91, 93, 43, 44, 32, 9, 10]

/-- True when the character is replaced by the underscore. -/
def isReplacedChar (c : Char) : Bool := replacedCodePoints.contains c.toNat

/-- Character-wise replacement step of the regex replace. -/
def cleanChar (c : Char) : Char := if isReplacedChar c then '_' else c

/-- True when the string starts with a decimal digit (regex match of
handler.js line 27). -/
def startsWithDigit (cs : List Char) : Bool :=
  match cs with
  | [] => false
  | c :: _ => 48 ≤ c.toNat && c.toNat ≤ 57

/-- mapName2HandlerName from handler.js lines 24-31: replace every character
of the class by an underscore, and prefix with an underscore when the result
starts with a digit. -/
def mapName2HandlerName (name : String) : String :=
  let cleanName := name.data.map cleanChar
  if startsWithDigit cleanName then String.mk ('_' :: cleanName)
  else String.mk cleanName

/-- getHandlerFromProcess from handler.js lines 39-43: the handler dictionary
is consulted at the canonicalised name. The dictionary of the process
(process.eventHandler) is modelled as a lookup function with an Option
result for each value type used by the engine. -/
def getHandlerFromProcess {v : Type} (eventHandler : String → Option v)
    (name : String) : Option v :=
  eventHandler (mapName2HandlerName name)

/-- callHandler from handler.js lines 51-82, restricted to handlers used as
boolean predicates (exclusive-gateway branch handlers): a missing handler
routes to the default event handler whose result is undefined, hence falsy. -/
def callHandlerBool (eventHandler : String → Option Bool) (name : String) : Bool :=
  (getHandlerFromProcess eventHandler name).getD false

/-- callHandler restricted to handlers returning a number (the getTimeout
handlers); a missing handler yields undefined, which is NaN as a number,
modelled as none. -/
def callHandlerNum (eventHandler : String → Option Int) (name : String) : Option Int :=
  getHandlerFromProcess eventHandler name

/-- Modelled from the spec (section 4.6 of spec.md, also quoted by the claim):
the set of characters listed there, as code points: colon, exclamation mark,
backtick, tilde, caret, at-sign, asterisk, hash, cent sign, not sign,
c-cedilla, question mark, broken bar, vertical bar, ampersand, semicolon,
percent, double quote, angle brackets, parentheses, braces, square brackets,
plus, comma, space, tab, newline. This is the refinement target for the
source regex class; it is compared with replacedCodePoints. -/
def specListedCodePoints : List Nat :=
  [58, 33, 96, 126, 94, 64, 42, 35, 162, 172, 231, 63, 166, 124, 38, 59,
   37, 34, 60, 62, 40, 41, 123, 125, 91, 93, 43, 44, 32, 9, 10]

/-- Modelled from the spec: the canonical handler identifier described in the
claim, written independently over the listed character set. -/
def specMapName (name : String) : String :=
  let cleaned := name.data.map
    (fun c => if specListedCodePoints.contains c.toNat then '_' else c)
  match cleaned with
  | [] => String.mk []
  | c :: _ =>
      if 48 ≤ c.toNat ∧ c.toNat ≤ 57 then String.mk ('_' :: cleaned)
      else String.mk cleaned

/-! ## state.js: tokens and process state

A Token (state.js lines 29-33) has a position and an owning process id.
A CallActivityToken (lines 41-47) additionally has a calledProcessId and a
substate holding the called process state. Both variants are modelled by one
type; for a plain token the two extra fields are absent (none), mirroring the
undefined properties in JavaScript. The substate, a BPMNProcessState, is
stored through its token list. -/

inductive Token where
  | mk (position : String) (owningProcessId : String)
       (calledProcessId : Option String) (substate : Option (List Token))

def Token.position : Token → String
  | .mk p _ _ _ => p

def Token.owningProcessId : Token → String
  | .mk _ o _ _ => o

def Token.calledProcessId : Token → Option String
  | .mk _ _ c _ => c

def Token.substate : Token → Option (List Token)
  | .mk _ _ _ s => s

/-- BPMNProcessState (state.js lines 54-58): the token list. -/
structure BPMNProcessState where
  tokens : List Token

/-- createTokenAt (state.js lines 66-78): push a new token; a call-activity
token when calledProcessId is given.  The fresh CallActivityToken has
substate null. -/
def createTokenAt (s : BPMNProcessState) (flowObjectName owningProcessId : String)
    (calledProcessId : Option String := none) : BPMNProcessState :=
  match calledProcessId with
  | some cid =>
      ⟨s.tokens ++ [Token.mk flowObjectName owningProcessId (some cid) none]⟩
  | none => ⟨s.tokens ++ [Token.mk flowObjectName owningProcessId none none]⟩

/-- The helper _findTokens (state.js lines 13-22): collect, in traversal
order, every token whose position matches, descending recursively into the
substate of call-activity tokens. -/
def findInTokens (flowObjectName : String) : List Token → List Token
  | [] => []
  | Token.mk p own cid osub :: ts =>
      (if p = flowObjectName then [Token.mk p own cid osub] else []) ++
      (match osub with
       | some sub => findInTokens flowObjectName sub
       | none => []) ++
      findInTokens flowObjectName ts

/-- findTokens (state.js lines 84-88). -/
def BPMNProcessState.findTokens (s : BPMNProcessState) (flowObjectName : String) :
    List Token :=
  findInTokens flowObjectName s.tokens

/-- findCallActivityTokens (state.js lines 93-103): top-level tokens carrying
a calledProcessId. -/
def BPMNProcessState.findCallActivityTokens (s : BPMNProcessState) : List Token :=
  s.tokens.filter (fun t => t.calledProcessId.isSome)

/-- getFirstToken (state.js lines 109-112). -/
def BPMNProcessState.getFirstToken (s : BPMNProcessState) (flowObjectName : String) :
    Option Token :=
  (s.findTokens flowObjectName).head?

/-- removeTokenAt (state.js lines 117-136): copy all tokens except the first
one whose position equals the flow object name. -/
def BPMNProcessState.removeTokenAt (s : BPMNProcessState) (flowObjectName : String) :
    BPMNProcessState :=
  let r := s.tokens.foldl
    (fun (acc : Bool × List Token) token =>
      if acc.1 then (true, acc.2 ++ [token])
      else if token.position = flowObjectName then (true, acc.2)
      else (false, acc.2 ++ [token]))
    (false, [])
  ⟨r.2⟩

/-- removeAllTokensAt (state.js lines 141-152): keep the tokens whose
position differs from the flow object name. -/
def BPMNProcessState.removeAllTokensAt (s : BPMNProcessState)
    (flowObjectName : String) : BPMNProcessState :=
  ⟨s.tokens.filter (fun t => !(t.position = flowObjectName))⟩

/-- hasTokens (state.js lines 166-169). -/
def BPMNProcessState.hasTokens (s : BPMNProcessState) (flowObjectName : String) : Bool :=
  !(s.findTokens flowObjectName).isEmpty

/-- hasTokensAt (state.js lines 158-160), for a non-null flow object. -/
def BPMNProcessState.hasTokensAt (s : BPMNProcessState) (flowObjectName : String) : Bool :=
  s.hasTokens flowObjectName

/-- numberOfTokensAt (state.js lines 175-187): counts only top-level tokens,
no descent into substates. -/
def BPMNProcessState.numberOfTokensAt (s : BPMNProcessState)
    (flowObjectName : String) : Nat :=
  s.tokens.countP (fun t => t.position = flowObjectName)

/-- A token at the given position occurs in the token list, possibly nested
inside substates of call-activity tokens (specification predicate for the
recursive search). -/
inductive TokenAtIn (name : String) : List Token → Prop where
  | top {ts : List Token} {t : Token} :
      t ∈ ts → t.position = name → TokenAtIn name ts
  | sub {ts : List Token} {t : Token} {s : List Token} :
      t ∈ ts → t.substate = some s → TokenAtIn name s → TokenAtIn name ts

/-! ## parsing: the definition graph

A flow object (parsing/flowObject.js and its subtypes) carries an id, a
name, a type string, and the tag booleans set by the subtype constructors
(isStartEvent, isWaitTask, and so on). Absent tags are false. -/

structure FlowObject where
  bpmnId : String
  name : String
  ty : String
  isStartEvent : Bool := false
  isEndEvent : Bool := false
  isIntermediateCatchEvent : Bool := false
  isBoundaryEvent : Bool := false
  isWaitTask : Bool := false
  isTimerEvent : Bool := false
deriving DecidableEq, Repr

/-- BPMNSequenceFlow (parsing/sequenceFlows.js): name, source, target. -/
structure SequenceFlow where
  name : String
  sourceRef : String
  targetRef : String
deriving DecidableEq, Repr

/-- The definition graph as used by the runtime claims: flow objects and
sequence flows of one process definition (processDefinition.js). -/
structure ProcessDefinition where
  flowObjects : List FlowObject
  sequenceFlows : List SequenceFlow

/-- buildFlowIndex (processDefinition.js lines 13-27): group the flows by
source (or target) ref, preserving encounter order inside every group. The
JavaScript object is an association list here. -/
def addFlowToIndex (index : List (String × List SequenceFlow)) (ref : String)
    (flow : SequenceFlow) : List (String × List SequenceFlow) :=
  match index with
  | [] => [(ref, [flow])]
  | (r, fs) :: rest =>
      if r = ref then (r, fs ++ [flow]) :: rest
      else (r, fs) :: addFlowToIndex rest ref flow

def buildFlowIndex (flows : List SequenceFlow) (indexBySource : Bool) :
    List (String × List SequenceFlow) :=
  flows.foldl
    (fun index flow =>
      addFlowToIndex index (if indexBySource then flow.sourceRef else flow.targetRef) flow)
    []

/-- getOutgoingSequenceFlows (processDefinition.js lines 262-265): the group
of the flow object in the by-source index, or the empty list. -/
def getOutgoingSequenceFlows (d : ProcessDefinition) (fo : FlowObject) :
    List SequenceFlow :=
  ((buildFlowIndex d.sequenceFlows true).lookup fo.bpmnId).getD []

/-- getIncomingSequenceFlows (processDefinition.js lines 243-246). -/
def getIncomingSequenceFlows (d : ProcessDefinition) (fo : FlowObject) :
    List SequenceFlow :=
  ((buildFlowIndex d.sequenceFlows false).lookup fo.bpmnId).getD []

/-- getFlowObjectByName (processDefinition.js lines 208-222): the name map
built by buildNameMap rejects duplicate flow-object names, so the lookup
resolves to the unique flow object bearing the name; first-match on the
flow-object list is that unique object. -/
def getFlowObjectByName (d : ProcessDefinition) (name : String) : Option FlowObject :=
  d.flowObjects.find? (fun fo => fo.name = name)

/-! ## gateways.js: exclusive and parallel gateway emitTokens -/

/-- The separator used to form branch handler names
(handler.js line 8: handlerNameSeparator). -/
def handlerNameSeparator : String := "$"

/-- The loop state of BPMNExclusiveGateway.prototype.emitTokens (gateways.js
lines 81-114): the emittedToken flag, plus the observable effects, namely
the branch handlers called (in order) and the flows along which
emitTokenAlong was invoked. -/
structure ExclusiveEmitState where
  emittedToken : Bool
  calls : List String
  emitted : List SequenceFlow
deriving DecidableEq, Repr

/-- The body of the outgoingSequenceFlowsIter callback (gateways.js lines
89-112): skip once a token was emitted; when diverging, call the branch
handler named gateway.name + separator + flow.name and emit along the flow
when it returns truthy; when not diverging, emit unconditionally. -/
def exclusiveGatewayStep (eventHandler : String → Option Bool) (gwName : String)
    (isDiverging : Bool) (st : ExclusiveEmitState)
    (outgoingSequenceFlow : SequenceFlow) : ExclusiveEmitState :=
  if st.emittedToken then st
  else if isDiverging then
    let handlerName := gwName ++ handlerNameSeparator ++ outgoingSequenceFlow.name
    if callHandlerBool eventHandler handlerName then
      { emittedToken := true, calls := st.calls ++ [handlerName],
        emitted := st.emitted ++ [outgoingSequenceFlow] }
    else
      { st with calls := st.calls ++ [handlerName] }
  else
    { st with emittedToken := true,
              emitted := st.emitted ++ [outgoingSequenceFlow] }

/-- BPMNExclusiveGateway.prototype.emitTokens (gateways.js lines 81-114).
The surrounding onFlowObjectEnd callback and the transaction logging do not
affect which handlers are called or which flow is taken and are dropped;
eventHandler is the handler dictionary of the process. -/
def exclusiveGatewayEmitTokens (eventHandler : String → Option Bool)
    (d : ProcessDefinition) (gw : FlowObject) : ExclusiveEmitState :=
  let outgoingSequenceFlows := getOutgoingSequenceFlows d gw
  let isDiverging := decide (outgoingSequenceFlows.length > 1)
  outgoingSequenceFlows.foldl
    (exclusiveGatewayStep eventHandler gw.name isDiverging) ⟨false, [], []⟩

/-- Result of BPMNParallelGateway.prototype.emitTokens: the new state, the
flows along which a token was emitted, and whether persist was called. -/
structure ParallelEmitResult where
  state : BPMNProcessState
  emitted : List SequenceFlow
  persisted : Bool

/-- BPMNParallelGateway.prototype.emitTokens (gateways.js lines 155-176):
create a token at the gateway, count the top-level tokens there, and either
fire the join (remove all tokens at the gateway, emit along every outgoing
flow) or persist and wait.  It runs after _emitTokens (process.js line 679)
already removed the arriving token. -/
def parallelGatewayEmitTokens (d : ProcessDefinition) (processId : String)
    (s : BPMNProcessState) (gw : FlowObject) : ParallelEmitResult :=
  let numberOfIncomingFlows := (getIncomingSequenceFlows d gw).length
  let s1 := createTokenAt s gw.name processId
  let numberOfTokens := s1.numberOfTokensAt gw.name
  if numberOfTokens = numberOfIncomingFlows then
    { state := s1.removeAllTokensAt gw.name,
      emitted := getOutgoingSequenceFlows d gw,
      persisted := false }
  else
    { state := s1, emitted := [], persisted := true }

/-! ## find.js: queries over process collections -/

/-- A process as seen by the queries of find.js: its current state, its
definition name and its properties. -/
structure ProcessView where
  state : BPMNProcessState
  definitionName : String
  properties : List (String × String)

/-- findByState (find.js lines 233-243): all processes with at least one
token at the given state name; an empty state name selects everything
(findAll, the falsy check on stateName). -/
def findByState (bpmnProcesses : List ProcessView) (stateName : String) :
    List ProcessView :=
  let findAll := stateName = ""
  bpmnProcesses.filter (fun p => findAll || p.state.hasTokens stateName)

/-! ## history.js: process history

HistoryEntry (history.js lines 25-31) and BPMNProcessHistory (lines 42-62)
form a nested structure: an entry of a call activity carries the subhistory
of the called process. Timestamps come from Date.now() and are Nat; the
falsy guards of the constructor treat the value 0 like null/undefined. The
field named end in the source is endT here (end is a Lean keyword); type is
ty. -/

mutual
inductive HistoryEntry where
  | mk (name : String) (ty : String) (beginT : Nat) (endT : Option Nat)
       (subhistory : Option BPMNProcessHistory)
inductive BPMNProcessHistory where
  | mk (historyEntries : List HistoryEntry) (createdAt : Nat)
       (finishedAt : Option Nat)
end

def HistoryEntry.name : HistoryEntry → String
  | .mk n _ _ _ _ => n

def HistoryEntry.ty : HistoryEntry → String
  | .mk _ t _ _ _ => t

def HistoryEntry.beginT : HistoryEntry → Nat
  | .mk _ _ b _ _ => b

def HistoryEntry.endT : HistoryEntry → Option Nat
  | .mk _ _ _ e _ => e

def HistoryEntry.subhistory : HistoryEntry → Option BPMNProcessHistory
  | .mk _ _ _ _ s => s

def BPMNProcessHistory.historyEntries : BPMNProcessHistory → List HistoryEntry
  | .mk es _ _ => es

def BPMNProcessHistory.createdAt : BPMNProcessHistory → Nat
  | .mk _ c _ => c

def BPMNProcessHistory.finishedAt : BPMNProcessHistory → Option Nat
  | .mk _ _ f => f

/-- addEntry (history.js lines 67-69): push a fresh entry with begin equal
to the current timestamp and no end. -/
def BPMNProcessHistory.addEntry (h : BPMNProcessHistory) (now : Nat)
    (fo : FlowObject) : BPMNProcessHistory :=
  .mk (h.historyEntries ++ [HistoryEntry.mk fo.name fo.ty now none none])
    h.createdAt h.finishedAt

/- The copying constructor BPMNProcessHistory(history) (history.js lines
42-61), as run when loading persisted data at wall-clock time now. Each
entry is rebuilt through the HistoryEntry constructor whose begin argument
falls back to the current timestamp when falsy and whose end argument falls
back to null when falsy; finishedAt falls back to null when falsy. -/
mutual
def copyEntry (now : Nat) : HistoryEntry → HistoryEntry
  | .mk n ty b e sub =>
      .mk n ty (if b = 0 then now else b)
        (match e with
         | some v => if v = 0 then none else some v
         | none => none)
        (match sub with
         | some h => some (copyHistory now h)
         | none => none)

def copyEntries (now : Nat) : List HistoryEntry → List HistoryEntry
  | [] => []
  | e :: es => copyEntry now e :: copyEntries now es

def copyHistory (now : Nat) : BPMNProcessHistory → BPMNProcessHistory
  | .mk es c f =>
      .mk (copyEntries now es) c
        (match f with
         | some v => if v = 0 then none else some v
         | none => none)
end

/- Well-formedness of a history as produced by the engine at run time:
every timestamp written by Date.now() is nonzero, so no begin is 0, no set
end is 0 and no set finishedAt is 0, recursively through subhistories. -/
mutual
def entryWF : HistoryEntry → Bool
  | .mk _ _ b e sub =>
      (b != 0) && (e != some 0) &&
      (match sub with
       | some h => historyWF h
       | none => true)

def entriesWF : List HistoryEntry → Bool
  | [] => true
  | e :: es => entryWF e && entriesWF es

def historyWF : BPMNProcessHistory → Bool
  | .mk es _ f => entriesWF es && (f != some 0)
end

/-- The helper _hasBeenVisited (history.js lines 111-129): a first pass over
the entry names, and when nothing matches, a second pass descending into
the subhistories. -/
def entriesHasName (flowObjectName : String) : List HistoryEntry → Bool
  | [] => false
  | .mk n _ _ _ _ :: es => (n = flowObjectName) || entriesHasName flowObjectName es

mutual
def entriesSubVisited (flowObjectName : String) : List HistoryEntry → Bool
  | [] => false
  | .mk _ _ _ _ sub :: es =>
      (match sub with
       | some h => hasBeenVisitedHistory flowObjectName h
       | none => false) ||
      entriesSubVisited flowObjectName es

def hasBeenVisitedHistory (flowObjectName : String) (h : BPMNProcessHistory) : Bool :=
  match h with
  | .mk es _ _ =>
      entriesHasName flowObjectName es || entriesSubVisited flowObjectName es
end

/-- hasBeenVisited (history.js lines 135-137). -/
def BPMNProcessHistory.hasBeenVisited (h : BPMNProcessHistory)
    (flowObjectName : String) : Bool :=
  hasBeenVisitedHistory flowObjectName h

/-- An entry bearing the given name occurs in the entry list, possibly
nested inside subhistories (specification predicate for hasBeenVisited). -/
inductive EntryNamedIn (name : String) : List HistoryEntry → Prop where
  | here {es : List HistoryEntry} {e : HistoryEntry} :
      e ∈ es → e.name = name → EntryNamedIn name es
  | deeper {es : List HistoryEntry} {e : HistoryEntry} {h : BPMNProcessHistory} :
      e ∈ es → e.subhistory = some h → EntryNamedIn name h.historyEntries →
      EntryNamedIn name es

/-! ## process.js: triggerEvent -/

/-- The task-done suffix (parsing/activity.js line 9,
activityEndHandlerPostfix in the source). -/
def activityEndHandlerSuffix : String := "Done"

/-- The underscore.string endsWith test used in triggerEvent
(process.js line 259). -/
def endsWithDone (s : String) : Bool := s.endsWith activityEndHandlerSuffix

/-- The underscore.string strLeft used in triggerEvent (process.js line
285): the part of the string before the first occurrence of the separator;
the whole string when the separator does not occur. -/
def strLeftDone (s : String) : String := (s.splitOn activityEndHandlerSuffix).headD ""

/-- What triggerEvent does besides updating state and history. -/
inductive TriggerOutcome where
  | tokenPut
  | intermediateEnqueued
  | boundaryEnqueued
  | taskDoneEmitted (taskName : String)
  | errAlreadyStarted
  | errUnknownEvent
deriving DecidableEq, Repr

/-- Result of triggerEvent: the instance state and history after the call
(unchanged whenever the call throws or only enqueues an event) together
with the outcome. -/
structure TriggerResult where
  state : BPMNProcessState
  history : BPMNProcessHistory
  outcome : TriggerOutcome

/-- BPMNProcess.prototype.triggerEvent (process.js lines 254-298) at
wall-clock time now. The start-event branch checks hasBeenVisited and
throws before touching any state; otherwise it runs _putTokenAt (process.js
lines 381-390), that is createTokenAt followed by the history entry of
onFlowObjectBegin and the TOKEN_ARRIVED emission. The intermediate-catch
and boundary branches only enqueue an internal event. The fallback treats a
name ending in Done whose stripped part is a wait task as taskDone, and
throws otherwise. -/
def triggerEvent (d : ProcessDefinition) (processId : String) (now : Nat)
    (st : BPMNProcessState) (hist : BPMNProcessHistory)
    (eventName : String) : TriggerResult :=
  let taskDoneMatch := endsWithDone eventName
  match getFlowObjectByName d eventName with
  | some flowObject =>
      if flowObject.isStartEvent then
        if hist.hasBeenVisited eventName then ⟨st, hist, .errAlreadyStarted⟩
        else
          ⟨createTokenAt st flowObject.name processId,
           hist.addEntry now flowObject, .tokenPut⟩
      else if flowObject.isIntermediateCatchEvent then
        ⟨st, hist, .intermediateEnqueued⟩
      else if flowObject.isBoundaryEvent then
        ⟨st, hist, .boundaryEnqueued⟩
      else ⟨st, hist, .errUnknownEvent⟩
  | none =>
      if taskDoneMatch then
        let flowObjectName := strLeftDone eventName
        match getFlowObjectByName d flowObjectName with
        | some fo2 =>
            if fo2.isWaitTask then ⟨st, hist, .taskDoneEmitted flowObjectName⟩
            else ⟨st, hist, .errUnknownEvent⟩
        | none => ⟨st, hist, .errUnknownEvent⟩
      else ⟨st, hist, .errUnknownEvent⟩

/-! ## timeouts.js: pending timer events -/

/-- The getTimeout handler suffix (timeouts.js line 7). -/
def getTimeoutHandlerSuffix : String := "$getTimeout"

/-- Timeout (timeouts.js lines 14-27): absolute epoch time and the duration
returned by the getTimeout handler. Times are Int so that the diff
computation of addTimerEvent can go negative. -/
structure Timeout where
  atMs : Int
  timeout : Int
deriving DecidableEq, Repr

/-- The Timeout constructor for isRelative = true: at = now + timeoutInMs. -/
def Timeout.relative (now timeoutInMs : Int) : Timeout :=
  ⟨now + timeoutInMs, timeoutInMs⟩

/-- The pendingTimeouts object: an association list keyed by timer event
name. -/
abbrev TimeoutMap : Type := List (String × Timeout)

/-- Assignment pendingTimeouts[name] = timeout: replace the entry when the
key exists, append otherwise. -/
def storeTimeout (m : TimeoutMap) (name : String) (t : Timeout) : TimeoutMap :=
  match m with
  | [] => [(name, t)]
  | (k, v) :: rest =>
      if k = name then (k, t) :: rest else (k, v) :: storeTimeout rest name t

/-- removeTimeout (timeouts.js lines 58-67) on the pendingTimeouts map; the
clearTimeout on the scheduler handle has no observable effect here. -/
def removeTimeoutEntry (m : TimeoutMap) (name : String) : TimeoutMap :=
  m.filter (fun p => !(p.1 = name))

/-- Whether addTimerEvent scheduled the callback for later or ran it at
once. -/
inductive TimerAction where
  | scheduled (diffMs : Int)
  | firedImmediately
deriving DecidableEq, Repr

/-- addTimerEvent (timeouts.js lines 144-171): resolve the getTimeout
handler (throw BadTimeout, here none, when the result is not a number),
keep the given pending timeout or build a fresh relative one, store it
under the timer name, and schedule after diff = at - now when diff is
positive, else run the timeout handler immediately. The process-level body
of the fired callback (token movement, handler calls) is outside this
function in the source as well: it is the closure passed by the caller. -/
def addTimerEvent (eventHandler : String → Option Int) (now : Int)
    (m : TimeoutMap) (timerEventName : String) (pendingTimeout : Option Timeout) :
    Option (TimeoutMap × TimerAction) :=
  let getTimeoutHandlerName := timerEventName ++ getTimeoutHandlerSuffix
  match callHandlerNum eventHandler getTimeoutHandlerName with
  | none => none
  | some timeoutInMs =>
      let timeout := pendingTimeout.getD (Timeout.relative now timeoutInMs)
      let m1 := storeTimeout m timerEventName timeout
      let diff := timeout.atMs - now
      if diff > 0 then some (m1, .scheduled diff)
      else some (m1, .firedImmediately)

/-- restoreTimerEvents (timeouts.js lines 72-86) on a freshly constructed
BPMNPendingTimerEvents (empty map): every persisted entry is re-added
through addTimerEvent with the persisted timeout object. Both
addIntermediateTimerEvent and addBoundaryTimerEvent delegate to
addTimerEvent; their fired callbacks start by removing the timeout from the
map, which happens synchronously in the immediate-fire case, so a fired
entry is removed again. The per-entry action is recorded. -/
def restoreTimerEvents (eventHandler : String → Option Int) (now : Int)
    (pendingTimeouts : List (String × Timeout)) :
    Option (TimeoutMap × List (String × TimerAction)) :=
  pendingTimeouts.foldl
    (fun acc p =>
      match acc with
      | none => none
      | some (m, acts) =>
          match addTimerEvent eventHandler now m p.1 (some p.2) with
          | none => none
          | some (m1, TimerAction.scheduled diff) =>
              some (m1, acts ++ [(p.1, TimerAction.scheduled diff)])
          | some (m1, TimerAction.firedImmediately) =>
              some (removeTimeoutEntry m1 p.1, acts ++ [(p.1, TimerAction.firedImmediately)]))
    (some ([], []))

/-! ## process.js: persistence -/

/-- The views summary (process.js lines 79-83); persisted but not restored
by setPersistedData. -/
structure Views where
  startEvent : Option HistoryEntry
  endEvent : Option HistoryEntry
  duration : Option Nat

/-- The per-instance data of a main BPMNProcess that takes part in the
persist/load protocol. Properties hold user key/value data; values are
modelled as strings. -/
structure ProcessInstance where
  processName : String
  processId : String
  parentToken : Option Token
  properties : List (String × String)
  state : BPMNProcessState
  history : BPMNProcessHistory
  pendingTimeouts : List (String × Timeout)
  views : Views

/-- The persisted document built by persist (process.js lines 484-496). -/
structure PersistentData where
  processName : String
  processId : String
  parentToken : Option Token
  properties : List (String × String)
  state : BPMNProcessState
  history : BPMNProcessHistory
  pendingTimeouts : List (String × Timeout)
  views : Views

/-- persist (process.js lines 453-498): the document handed to the
persistency layer for a main process. -/
def persist (i : ProcessInstance) : PersistentData :=
  { processName := i.processName
    processId := i.processId
    parentToken := i.parentToken
    properties := i.properties
    state := i.state
    history := i.history
    pendingTimeouts := i.pendingTimeouts
    views := i.views }

/-- setPersistedData (process.js lines 644-650) at wall-clock time now:
rebuild the state from the loaded token list, rebuild the history through
the copying constructor, restore the timer events into a fresh pending map
(none when a getTimeout handler is missing, the BadTimeout throw), and take
the loaded properties. views is not restored. -/
def setPersistedData (eventHandler : String → Option Int) (now : Nat)
    (i : ProcessInstance) (loadedData : PersistentData) : Option ProcessInstance :=
  match restoreTimerEvents eventHandler (Int.ofNat now) loadedData.pendingTimeouts with
  | none => none
  | some (m, _) =>
      some { i with
        state := ⟨loadedData.state.tokens⟩
        history := copyHistory now loadedData.history
        pendingTimeouts := m
        properties := loadedData.properties }

/-! ## rest.js: idempotent message PUT -/

/-- hasBeenAlreadyReceived (rest.js lines 161-173) acting on the
receivedMessageIds collection (membership models the truthy property
check): a falsy (empty) id is never recorded and reports false. -/
def hasBeenAlreadyReceived (receivedMessageIds : List String)
    (idempotenceId : String) : Bool × List String :=
  if idempotenceId = "" then (false, receivedMessageIds)
  else if receivedMessageIds.contains idempotenceId then (true, receivedMessageIds)
  else (false, idempotenceId :: receivedMessageIds)

/-- The idempotence id built in sendMessage (rest.js line 211). -/
def idempotenceId (processName processId messageName messageId : String) : String :=
  processName ++ "." ++ processId ++ "." ++ messageName ++ "." ++ messageId

/-- sendMessage (rest.js lines 199-229): when the id was already received,
answer 200 with the current view and do not touch the process; otherwise
record the id, trigger the event on the process and answer 201. The process
type and its triggerEvent step are abstract parameters; the response body is
the process view in both cases. -/
def restSendMessage {Proc : Type} (triggerEventFn : Proc → String → Proc)
    (receivedMessageIds : List String) (bpmnProcess : Proc)
    (processName processId messageName messageId : String) :
    List String × Proc × Nat :=
  let iid := idempotenceId processName processId messageName messageId
  let r := hasBeenAlreadyReceived receivedMessageIds iid
  if r.1 then (r.2, bpmnProcess, 200)
  else (r.2, triggerEventFn bpmnProcess messageName, 201)

/-! ## Event ordering trace (process.js token-arrival pipeline)

The claims about ordering are settled on an action trace. Each source
function is rendered in continuation style: it produces the list of
observable actions it performs, in order, around the actions of its
continuation. -/

inductive EngineAction where
  | createToken (name : String)
  | histBegin (name : String)
  | emitTokenArrived (name : String)
  | runHandler (name : String)
  | handlerDone (name : String)
  | removeToken (name : String)
  | histEnd (name : String)
deriving DecidableEq, Repr

/-- onFlowObjectBegin (process.js lines 731-757): append the history entry
(begin timestamp), then run the continuation (the optional onBeginHandler
and debugger notification in between have no actions here). -/
def onFlowObjectBeginTrace (name : String) (done : List EngineAction) :
    List EngineAction :=
  .histBegin name :: done

/-- onFlowObjectEnd (process.js lines 765-788): set the end timestamp of
the history entry, then run the continuation; the source comment notes that
done() must be called after setEnd() because done sends the token onward. -/
def onFlowObjectEndTrace (name : String) (done : List EngineAction) :
    List EngineAction :=
  .histEnd name :: done

/-- _putTokenAt (process.js lines 381-390): create the token, then
onFlowObjectBegin, whose continuation emits TOKEN_ARRIVED and continues. -/
def putTokenAtTrace (name : String) (k : List EngineAction) : List EngineAction :=
  .createToken name :: onFlowObjectBeginTrace name (.emitTokenArrived name :: k)

/-- The default BPMNFlowObject.prototype.emitTokens (flowObject.js lines
27-35): onFlowObjectEnd around the loop that emits along every outgoing
flow; emitTokenAlong (process.js lines 710-714) is _putTokenAt at the
target, whose further processing is not part of this one-step trace. -/
def emitTokensDefaultTrace (name : String) (successorNames : List String) :
    List EngineAction :=
  onFlowObjectEndTrace name
    (successorNames.foldr (fun s acc => putTokenAtTrace s acc) [])

/-- The TOKEN_ARRIVED listener for a default flow object (process.js lines
1016-1092, else branch): the user handler runs; its done callback
(handlerDone, process.js line 1061) leads to _emitTokens (lines 674-695),
which removes the token and delegates to the default emitTokens. -/
def tokenArrivedTrace (name : String) (successorNames : List String) :
    List EngineAction :=
  .runHandler name :: .handlerDone name :: .removeToken name ::
    emitTokensDefaultTrace name successorNames

/-- One full step for a token arriving at a default flow object with the
given successors: placement followed by the TOKEN_ARRIVED processing. -/
def flowObjectStepTrace (name : String) (successorNames : List String) :
    List EngineAction :=
  putTokenAtTrace name (tokenArrivedTrace name successorNames)

/-- a occurs before every occurrence of b in the trace, and a does occur. -/
def OccursBefore (a b : EngineAction) (t : List EngineAction) : Prop :=
  (∃ i, t.get? i = some a) ∧
  ∀ i j, t.get? i = some a → t.get? j = some b → i < j

/-! ## Helper lemmas -/

theorem lookup_addFlowToIndex (idx : List (String × List SequenceFlow))
    (ref : String) (flow : SequenceFlow) (r : String) :
    (addFlowToIndex idx ref flow).lookup r =
      if r = ref then some (((idx.lookup ref).getD []) ++ [flow])
      else idx.lookup r := by
  induction idx with
  | nil =>
      by_cases h : r = ref
      · subst h; simp [addFlowToIndex, List.lookup]
      · have hb : (r == ref) = false := beq_eq_false_iff_ne.mpr h
        simp [addFlowToIndex, List.lookup, hb, h]
  | cons p rest ih =>
      obtain ⟨k, v⟩ := p
      by_cases hk : k = ref
      · subst hk
        by_cases hr : r = k
        · subst hr; simp [addFlowToIndex, List.lookup]
        · have hb : (r == k) = false := beq_eq_false_iff_ne.mpr hr
          simp [addFlowToIndex, List.lookup, hb, hr]
      · have hbk : (ref == k) = false :=
          beq_eq_false_iff_ne.mpr (fun hh => hk hh.symm)
        by_cases hr : r = k
        · subst hr
          have hne : ¬(r = ref) := hk
          simp [addFlowToIndex, hk, List.lookup, hne]
        · have hbr : (r == k) = false := beq_eq_false_iff_ne.mpr hr
          simp only [addFlowToIndex, if_neg hk, List.lookup, hbk, hbr]
          exact ih

theorem buildFlowIndex_lookup_from (indexBySource : Bool) (r : String) :
    ∀ (flows : List SequenceFlow) (idx : List (String × List SequenceFlow)),
      (((flows.foldl
          (fun index flow =>
            addFlowToIndex index
              (if indexBySource then flow.sourceRef else flow.targetRef) flow)
          idx).lookup r).getD []) =
      ((idx.lookup r).getD []) ++
        flows.filter
          (fun f => (if indexBySource then f.sourceRef else f.targetRef) = r)
  | [], idx => by simp
  | flow :: flows, idx => by
      rw [List.foldl_cons, buildFlowIndex_lookup_from indexBySource r flows]
      rw [lookup_addFlowToIndex]
      by_cases h : (if indexBySource then flow.sourceRef else flow.targetRef) = r
      · rw [if_pos h.symm]
        simp [List.filter_cons, h]
      · rw [if_neg (fun hh => h hh.symm)]
        simp [List.filter_cons, h]

/-- The by-source flow index group of a flow object is exactly the sequence
flows with that source, in definition order. -/
theorem getOutgoingSequenceFlows_eq_filter (d : ProcessDefinition) (fo : FlowObject) :
    getOutgoingSequenceFlows d fo =
      d.sequenceFlows.filter (fun f => f.sourceRef = fo.bpmnId) := by
  unfold getOutgoingSequenceFlows buildFlowIndex
  rw [buildFlowIndex_lookup_from]
  simp

theorem getIncomingSequenceFlows_eq_filter (d : ProcessDefinition) (fo : FlowObject) :
    getIncomingSequenceFlows d fo =
      d.sequenceFlows.filter (fun f => f.targetRef = fo.bpmnId) := by
  unfold getIncomingSequenceFlows buildFlowIndex
  rw [buildFlowIndex_lookup_from]
  simp

theorem exclusiveFold_done (eventHandler : String → Option Bool) (g : String)
    (b : Bool) :
    ∀ (outs : List SequenceFlow) (st : ExclusiveEmitState),
      st.emittedToken = true →
      outs.foldl (exclusiveGatewayStep eventHandler g b) st = st
  | [], _, _ => rfl
  | f :: outs, st, h => by
      rw [List.foldl_cons]
      have hst : exclusiveGatewayStep eventHandler g b st f = st := by
        unfold exclusiveGatewayStep
        rw [if_pos h]
      rw [hst]
      exact exclusiveFold_done eventHandler g b outs st h

theorem exclusiveFold_div (eventHandler : String → Option Bool) (g : String) :
    ∀ (outs : List SequenceFlow) (cs : List String) (es : List SequenceFlow),
      outs.foldl (exclusiveGatewayStep eventHandler g true) ⟨false, cs, es⟩ =
        match outs.find?
            (fun f => callHandlerBool eventHandler (g ++ handlerNameSeparator ++ f.name)) with
        | some w =>
            ⟨true,
             cs ++ (outs.takeWhile
                (fun f => !callHandlerBool eventHandler (g ++ handlerNameSeparator ++ f.name))).map
                  (fun f => g ++ handlerNameSeparator ++ f.name) ++
              [g ++ handlerNameSeparator ++ w.name],
             es ++ [w]⟩
        | none =>
            ⟨false, cs ++ outs.map (fun f => g ++ handlerNameSeparator ++ f.name), es⟩
  | [], cs, es => by simp
  | f :: outs, cs, es => by
      rw [List.foldl_cons]
      by_cases hp : callHandlerBool eventHandler (g ++ handlerNameSeparator ++ f.name) = true
      · have hstep : exclusiveGatewayStep eventHandler g true ⟨false, cs, es⟩ f =
            ⟨true, cs ++ [g ++ handlerNameSeparator ++ f.name], es ++ [f]⟩ := by
          unfold exclusiveGatewayStep
          simp [hp]
        rw [hstep, exclusiveFold_done eventHandler g true outs _ rfl, List.find?_cons]
        simp [hp, List.takeWhile_cons]
      · have hpf : callHandlerBool eventHandler (g ++ handlerNameSeparator ++ f.name) = false :=
          Bool.eq_false_iff.mpr hp
        have hstep : exclusiveGatewayStep eventHandler g true ⟨false, cs, es⟩ f =
            ⟨false, cs ++ [g ++ handlerNameSeparator ++ f.name], es⟩ := by
          unfold exclusiveGatewayStep
          simp [hpf]
        rw [hstep, exclusiveFold_div eventHandler g outs _ es, List.find?_cons]
        cases hfind : outs.find?
            (fun f => callHandlerBool eventHandler (g ++ handlerNameSeparator ++ f.name)) with
        | none => simp [hfind, List.takeWhile_cons, hpf]
        | some w => simp [hfind, List.takeWhile_cons, hpf]

/-! ## Claim theorems -/

/-- Claim C8: for every BPMN name, the canonical handler identifier replaces
each character of the listed set (colon, exclamation mark, backtick, tilde,
caret, at-sign, asterisk, hash, cent sign, not sign, c-cedilla, question
mark, broken bar, vertical bar, ampersand, semicolon, percent, double quote,
angle brackets, parentheses, braces, square brackets, plus, comma, space,
tab, newline) by an underscore and prefixes an underscore when the first
character is a digit; and every handler lookup applies this mapping before
the dictionary lookup. -/
theorem claim_C8 :
    (∀ name : String, mapName2HandlerName name = specMapName name) ∧
    (∀ (v : Type) (eventHandler : String → Option v) (name : String),
      getHandlerFromProcess eventHandler name =
        eventHandler (mapName2HandlerName name)) := by
  refine ⟨?_, fun v eventHandler name => rfl⟩
  intro name
  have hrep : ∀ c : Char,
      cleanChar c = (if specListedCodePoints.contains c.toNat then '_' else c) := by
    intro c
    have hc : replacedCodePoints.contains c.toNat =
        specListedCodePoints.contains c.toNat := by
      rw [Bool.eq_iff_iff]
      simp only [List.contains, List.elem_iff, replacedCodePoints,
        specListedCodePoints, List.mem_cons, List.not_mem_nil, or_false]
      omega
    simp only [cleanChar, isReplacedChar, hc]
  have hmap : name.data.map cleanChar =
      name.data.map (fun c => if specListedCodePoints.contains c.toNat then '_' else c) :=
    List.map_congr_left (fun c _ => hrep c)
  unfold mapName2HandlerName specMapName
  rw [hmap]
  cases hd : name.data.map
      (fun c => if specListedCodePoints.contains c.toNat then '_' else c) with
  | nil => simp [startsWithDigit]
  | cons c rest =>
      dsimp only
      by_cases hdig : 48 ≤ c.toNat ∧ c.toNat ≤ 57
      · rw [if_pos hdig]
        have hsw : startsWithDigit (c :: rest) = true := by
          simp [startsWithDigit, hdig.1, hdig.2]
        rw [hsw]
        simp
      · rw [if_neg hdig]
        have hsw : startsWithDigit (c :: rest) = false := by
          simp only [startsWithDigit, Bool.and_eq_false_iff]
          rcases Decidable.not_and_iff_or_not.mp hdig with h | h
          · exact Or.inl (by simpa using h)
          · exact Or.inr (by simpa using h)
        rw [hsw]
        simp

/-- Claim C1: for an exclusive gateway, the outgoing flows are iterated in
definition order; when there is more than one, the branch predicate named
gateway.name + separator + flow.name is evaluated per flow, the first truthy
predicate wins, exactly one token is emitted along that flow and predicates
after the winner are not called; when no predicate is truthy no token is
emitted; when there is exactly one outgoing flow the token is emitted along
it without calling any predicate. -/
theorem claim_C1 (eventHandler : String → Option Bool) (d : ProcessDefinition)
    (gw : FlowObject) :
    (getOutgoingSequenceFlows d gw =
      d.sequenceFlows.filter (fun f => f.sourceRef = gw.bpmnId)) ∧
    (1 < (getOutgoingSequenceFlows d gw).length →
      (∀ w, (getOutgoingSequenceFlows d gw).find?
          (fun f => callHandlerBool eventHandler
            (gw.name ++ handlerNameSeparator ++ f.name)) = some w →
        (exclusiveGatewayEmitTokens eventHandler d gw).emitted = [w] ∧
        (exclusiveGatewayEmitTokens eventHandler d gw).calls =
          ((getOutgoingSequenceFlows d gw).takeWhile
            (fun f => !callHandlerBool eventHandler
              (gw.name ++ handlerNameSeparator ++ f.name))).map
            (fun f => gw.name ++ handlerNameSeparator ++ f.name) ++
          [gw.name ++ handlerNameSeparator ++ w.name]) ∧
      ((getOutgoingSequenceFlows d gw).find?
          (fun f => callHandlerBool eventHandler
            (gw.name ++ handlerNameSeparator ++ f.name)) = none →
        (exclusiveGatewayEmitTokens eventHandler d gw).emitted = [] ∧
        (exclusiveGatewayEmitTokens eventHandler d gw).calls =
          (getOutgoingSequenceFlows d gw).map
            (fun f => gw.name ++ handlerNameSeparator ++ f.name))) ∧
    (∀ f, getOutgoingSequenceFlows d gw = [f] →
      (exclusiveGatewayEmitTokens eventHandler d gw).emitted = [f] ∧
      (exclusiveGatewayEmitTokens eventHandler d gw).calls = []) := by
  refine ⟨getOutgoingSequenceFlows_eq_filter d gw, ?_, ?_⟩
  · intro hlen
    have hb : decide ((getOutgoingSequenceFlows d gw).length > 1) = true :=
      decide_eq_true hlen
    have heq : exclusiveGatewayEmitTokens eventHandler d gw =
        (getOutgoingSequenceFlows d gw).foldl
          (exclusiveGatewayStep eventHandler gw.name true) ⟨false, [], []⟩ := by
      simp only [exclusiveGatewayEmitTokens]
      rw [hb]
    rw [heq, exclusiveFold_div eventHandler gw.name (getOutgoingSequenceFlows d gw) [] []]
    constructor
    · intro w hw
      rw [hw]
      simp
    · intro hnone
      rw [hnone]
      simp
  · intro f hf
    have hb : decide ((getOutgoingSequenceFlows d gw).length > 1) = false := by
      rw [hf]
      simp
    have heq : exclusiveGatewayEmitTokens eventHandler d gw =
        (getOutgoingSequenceFlows d gw).foldl
          (exclusiveGatewayStep eventHandler gw.name false) ⟨false, [], []⟩ := by
      simp only [exclusiveGatewayEmitTokens]
      rw [hb]
    rw [heq, hf]
    simp [exclusiveGatewayStep]

/-- Witness for claim C1: a diverging gateway with two outgoing flows whose
first branch predicate is false and second is true emits exactly along the
second flow having consulted both predicates in order. -/
theorem claim_C1_witness :
    1 < (getOutgoingSequenceFlows
        ⟨[], [⟨"toA", "g1", "a1"⟩, ⟨"toB", "g1", "b1"⟩]⟩
        { bpmnId := "g1", name := "GW", ty := "exclusiveGateway" }).length ∧
    (exclusiveGatewayEmitTokens (fun s => some (s = "GW$toB"))
        ⟨[], [⟨"toA", "g1", "a1"⟩, ⟨"toB", "g1", "b1"⟩]⟩
        { bpmnId := "g1", name := "GW", ty := "exclusiveGateway" }).emitted =
      [⟨"toB", "g1", "b1"⟩] ∧
    (exclusiveGatewayEmitTokens (fun s => some (s = "GW$toB"))
        ⟨[], [⟨"toA", "g1", "a1"⟩, ⟨"toB", "g1", "b1"⟩]⟩
        { bpmnId := "g1", name := "GW", ty := "exclusiveGateway" }).calls =
      ["GW$toA", "GW$toB"] := by
  refine ⟨by decide, ?_, ?_⟩
  · exact (((claim_C1 (fun s => some (s = "GW$toB"))
      ⟨[], [⟨"toA", "g1", "a1"⟩, ⟨"toB", "g1", "b1"⟩]⟩
      { bpmnId := "g1", name := "GW", ty := "exclusiveGateway" }).2.1
        (by decide)).1 ⟨"toB", "g1", "b1"⟩ (by decide)).1
  · exact ((((claim_C1 (fun s => some (s = "GW$toB"))
      ⟨[], [⟨"toA", "g1", "a1"⟩, ⟨"toB", "g1", "b1"⟩]⟩
      { bpmnId := "g1", name := "GW", ty := "exclusiveGateway" }).2.1
        (by decide)).1 ⟨"toB", "g1", "b1"⟩ (by decide)).2).trans (by decide)

theorem removeFold_done (flowObjectName : String) :
    ∀ (ts : List Token) (acc : List Token),
      ts.foldl
        (fun (acc : Bool × List Token) token =>
          if acc.1 then (true, acc.2 ++ [token])
          else if token.position = flowObjectName then (true, acc.2)
          else (false, acc.2 ++ [token]))
        (true, acc) = (true, acc ++ ts)
  | [], acc => by simp
  | t :: ts, acc => by
      have ih := removeFold_done flowObjectName ts (acc ++ [t])
      simpa using ih

theorem removeFold_clean (flowObjectName : String) :
    ∀ (ts : List Token) (acc : List Token),
      (∀ u ∈ ts, ¬ u.position = flowObjectName) →
      ts.foldl
        (fun (acc : Bool × List Token) token =>
          if acc.1 then (true, acc.2 ++ [token])
          else if token.position = flowObjectName then (true, acc.2)
          else (false, acc.2 ++ [token]))
        (false, acc) = (false, acc ++ ts)
  | [], acc, _ => by simp
  | t :: ts, acc, h => by
      have ht : ¬ t.position = flowObjectName := h t (List.mem_cons_self _ _)
      have ih := removeFold_clean flowObjectName ts (acc ++ [t])
        (fun u hu => h u (List.mem_cons_of_mem _ hu))
      simpa [ht] using ih

theorem removeFold_split (flowObjectName : String) (l1 : List Token) (t : Token)
    (l2 : List Token) (acc : List Token)
    (hclean : ∀ u ∈ l1, ¬ u.position = flowObjectName)
    (ht : t.position = flowObjectName) :
    (l1 ++ t :: l2).foldl
        (fun (acc : Bool × List Token) token =>
          if acc.1 then (true, acc.2 ++ [token])
          else if token.position = flowObjectName then (true, acc.2)
          else (false, acc.2 ++ [token]))
        (false, acc) = (true, acc ++ l1 ++ l2) := by
  rw [List.foldl_append, removeFold_clean flowObjectName l1 acc hclean]
  have hd := removeFold_done flowObjectName l2 (acc ++ l1)
  simpa [ht] using hd

theorem first_match_cases (flowObjectName : String) :
    ∀ ts : List Token,
      (∀ u ∈ ts, ¬ u.position = flowObjectName) ∨
      ∃ l1 t l2, ts = l1 ++ t :: l2 ∧ t.position = flowObjectName ∧
        ∀ u ∈ l1, ¬ u.position = flowObjectName
  | [] => Or.inl (fun u hu => absurd hu (List.not_mem_nil _))
  | t :: ts => by
      by_cases ht : t.position = flowObjectName
      · exact Or.inr ⟨[], t, ts, by simp, ht, fun u hu => absurd hu (List.not_mem_nil _)⟩
      · rcases first_match_cases flowObjectName ts with h | ⟨l1, w, l2, heq, hw, hcl⟩
        · refine Or.inl ?_
          intro u hu
          rcases List.mem_cons.mp hu with rfl | hu'
          · exact ht
          · exact h u hu'
        · refine Or.inr ⟨t :: l1, w, l2, by simp [heq], hw, ?_⟩
          intro u hu
          rcases List.mem_cons.mp hu with rfl | hu'
          · exact ht
          · exact hcl u hu'

/-- Claim C10: removeTokenAt removes at most one token, namely the first
top-level token at the flow-object name; every other token, further tokens
at the same position, tokens elsewhere and tokens nested in call-activity
substates, survives unchanged; removeAllTokensAt drops exactly the
top-level tokens at the position; both results consist of unmodified tokens
of the original list (substates are never entered). -/
theorem claim_C10 (s : BPMNProcessState) (flowObjectName : String) :
    ((∀ u ∈ s.tokens, ¬ u.position = flowObjectName) →
      s.removeTokenAt flowObjectName = s) ∧
    (∀ l1 t l2, s.tokens = l1 ++ t :: l2 → t.position = flowObjectName →
      (∀ u ∈ l1, ¬ u.position = flowObjectName) →
      (s.removeTokenAt flowObjectName).tokens = l1 ++ l2) ∧
    ((s.removeAllTokensAt flowObjectName).tokens =
      s.tokens.filter (fun u => !(u.position = flowObjectName))) ∧
    (s.removeTokenAt flowObjectName).tokens.Sublist s.tokens ∧
    (s.removeAllTokensAt flowObjectName).tokens.Sublist s.tokens := by
  have hone : ∀ l1 t l2, s.tokens = l1 ++ t :: l2 → t.position = flowObjectName →
      (∀ u ∈ l1, ¬ u.position = flowObjectName) →
      (s.removeTokenAt flowObjectName).tokens = l1 ++ l2 := by
    intro l1 t l2 heq ht hclean
    unfold BPMNProcessState.removeTokenAt
    rw [heq, removeFold_split flowObjectName l1 t l2 [] hclean ht]
    simp
  have hnone : (∀ u ∈ s.tokens, ¬ u.position = flowObjectName) →
      s.removeTokenAt flowObjectName = s := by
    intro h
    unfold BPMNProcessState.removeTokenAt
    rw [removeFold_clean flowObjectName s.tokens [] h]
    simp
  refine ⟨hnone, hone, rfl, ?_, List.filter_sublist _⟩
  rcases first_match_cases flowObjectName s.tokens with h | ⟨l1, t, l2, heq, ht, hclean⟩
  · rw [hnone h]
  · rw [hone l1 t l2 heq ht hclean, heq]
    exact List.Sublist.append_left (List.sublist_cons_of_sublist _ (List.Sublist.refl _)) l1

/-- Witness for claim C10: in a state holding a token at x, then two tokens
at y (the second carrying a substate token), removing at y drops only the
first y token; removeAllTokensAt y keeps the x token and the nested token
survives inside the remaining structure. -/
theorem claim_C10_witness :
    (BPMNProcessState.removeTokenAt
        ⟨[Token.mk "x" "p" none none, Token.mk "y" "p" none none,
          Token.mk "y" "p" (some "c") (some [Token.mk "y" "c" none none])]⟩
        "y").tokens =
      [Token.mk "x" "p" none none,
       Token.mk "y" "p" (some "c") (some [Token.mk "y" "c" none none])] ∧
    (BPMNProcessState.removeTokenAt
        ⟨[Token.mk "x" "p" none none, Token.mk "y" "p" none none,
          Token.mk "y" "p" (some "c") (some [Token.mk "y" "c" none none])]⟩
        "z") = ⟨[Token.mk "x" "p" none none, Token.mk "y" "p" none none,
          Token.mk "y" "p" (some "c") (some [Token.mk "y" "c" none none])]⟩ := by
  constructor
  · exact (claim_C10 ⟨[Token.mk "x" "p" none none, Token.mk "y" "p" none none,
      Token.mk "y" "p" (some "c") (some [Token.mk "y" "c" none none])]⟩ "y").2.1
      [Token.mk "x" "p" none none] (Token.mk "y" "p" none none)
      [Token.mk "y" "p" (some "c") (some [Token.mk "y" "c" none none])]
      rfl rfl
      (by
        intro u hu
        rcases List.mem_singleton.mp hu with rfl
        simp [Token.position])
  · exact (claim_C10 ⟨[Token.mk "x" "p" none none, Token.mk "y" "p" none none,
      Token.mk "y" "p" (some "c") (some [Token.mk "y" "c" none none])]⟩ "z").1
      (by
        intro u hu
        rcases List.mem_cons.mp hu with rfl | hu
        · simp [Token.position]
        rcases List.mem_cons.mp hu with rfl | hu
        · simp [Token.position]
        rcases List.mem_singleton.mp hu with rfl
        simp [Token.position])

theorem tokenAtIn_cons_of_tail {name : String} {t : Token} {ts : List Token}
    (h : TokenAtIn name ts) : TokenAtIn name (t :: ts) := by
  cases h with
  | top hm hp => exact TokenAtIn.top (List.mem_cons_of_mem _ hm) hp
  | sub hm hs hin => exact TokenAtIn.sub (List.mem_cons_of_mem _ hm) hs hin

theorem findInTokens_ne_iff (name : String) :
    (ts : List Token) → (findInTokens name ts ≠ [] ↔ TokenAtIn name ts)
  | [] => by
      constructor
      · intro h
        simp [findInTokens] at h
      · intro h
        cases h with
        | top hm _ => exact absurd hm (List.not_mem_nil _)
        | sub hm _ _ => exact absurd hm (List.not_mem_nil _)
  | Token.mk p own cid osub :: ts => by
      have ihtail := findInTokens_ne_iff name ts
      constructor
      · intro hne
        by_cases hp : p = name
        · exact TokenAtIn.top (List.mem_cons_self _ _) (by simpa [Token.position] using hp)
        · cases hosub : osub with
          | none =>
              have hz : findInTokens name ts ≠ [] := by
                intro h0
                exact hne (by simp [findInTokens, hp, hosub, h0])
              exact tokenAtIn_cons_of_tail (ihtail.mp hz)
          | some sub =>
              by_cases hs : findInTokens name sub = []
              · have hz : findInTokens name ts ≠ [] := by
                  intro h0
                  exact hne (by simp [findInTokens, hp, hosub, hs, h0])
                exact tokenAtIn_cons_of_tail (ihtail.mp hz)
              · exact TokenAtIn.sub (List.mem_cons_self _ _)
                  (by simp [Token.substate, hosub])
                  ((findInTokens_ne_iff name sub).mp hs)
      · intro hin
        intro h0
        rw [findInTokens.eq_def] at h0
        dsimp only at h0
        rcases List.append_eq_nil.mp h0 with ⟨hxy, hz⟩
        rcases List.append_eq_nil.mp hxy with ⟨hx, hy⟩
        cases hin with
        | top hm hp =>
            rcases List.mem_cons.mp hm with rfl | hm2
            · simp only [Token.position] at hp
              simp [hp] at hx
            · exact (ihtail.mpr (TokenAtIn.top hm2 hp)) hz
        | sub hm hs hin2 =>
            rcases List.mem_cons.mp hm with rfl | hm2
            · simp only [Token.substate] at hs
              subst hs
              exact ((findInTokens_ne_iff name _).mpr hin2) hy
            · exact (ihtail.mpr (TokenAtIn.sub hm2 hs hin2)) hz

theorem head?_isSome_iff {a : Type} (l : List a) :
    l.head?.isSome = true ↔ l ≠ [] := by
  cases l <;> simp

theorem hasTokens_iff (s : BPMNProcessState) (name : String) :
    s.hasTokens name = true ↔ TokenAtIn name s.tokens := by
  rw [← findInTokens_ne_iff name s.tokens]
  unfold BPMNProcessState.hasTokens BPMNProcessState.findTokens
  cases findInTokens name s.tokens <;> simp

/-- Claim C9: the token queries search recursively through the substates of
call-activity tokens, so a query succeeds exactly when some descendant
process holds a token at the name; findByState returns precisely the
processes whose state (recursively) holds such a token, in particular one
whose own top-level tokens do not include the name but whose child state
does. -/
theorem claim_C9 (stateName : String) (hne : stateName ≠ "")
    (procs : List ProcessView) (p : ProcessView) :
    (∀ s : BPMNProcessState,
      s.hasTokens stateName = true ↔ TokenAtIn stateName s.tokens) ∧
    (∀ s : BPMNProcessState,
      (s.getFirstToken stateName).isSome = true ↔ TokenAtIn stateName s.tokens) ∧
    (∀ s : BPMNProcessState,
      s.findTokens stateName ≠ [] ↔ TokenAtIn stateName s.tokens) ∧
    (p ∈ findByState procs stateName ↔
      p ∈ procs ∧ TokenAtIn stateName p.state.tokens) := by
  refine ⟨fun s => hasTokens_iff s stateName, ?_, ?_, ?_⟩
  · intro s
    rw [← findInTokens_ne_iff stateName s.tokens]
    unfold BPMNProcessState.getFirstToken BPMNProcessState.findTokens
    exact head?_isSome_iff _
  · intro s
    exact findInTokens_ne_iff stateName s.tokens
  · unfold findByState
    rw [List.mem_filter]
    have hfa : decide (stateName = "") = false := decide_eq_false hne
    constructor
    · rintro ⟨hmem, hb⟩
      simp only [hfa, Bool.false_or] at hb
      exact ⟨hmem, (hasTokens_iff p.state stateName).mp hb⟩
    · rintro ⟨hmem, hat⟩
      refine ⟨hmem, ?_⟩
      simp only [hfa, Bool.false_or]
      exact (hasTokens_iff p.state stateName).mpr hat

/-- Witness for claim C9: a process whose only top-level token is a
call-activity token for a child holding a token at T is returned by
findByState for T although its own token set has no token at T. -/
theorem claim_C9_witness :
    ("T" : String) ≠ "" ∧
    (⟨⟨[Token.mk "CA" "p1" (some "sub") (some [Token.mk "T" "sub" none none])]⟩,
        "P", []⟩ : ProcessView) ∈
      findByState
        [⟨⟨[Token.mk "CA" "p1" (some "sub") (some [Token.mk "T" "sub" none none])]⟩,
          "P", []⟩] "T" ∧
    (∀ t ∈ ([Token.mk "CA" "p1" (some "sub")
        (some [Token.mk "T" "sub" none none])] : List Token),
      ¬ t.position = "T") := by
  refine ⟨by decide, ?_, ?_⟩
  · exact ((claim_C9 "T" (by decide)
      [⟨⟨[Token.mk "CA" "p1" (some "sub") (some [Token.mk "T" "sub" none none])]⟩,
        "P", []⟩]
      ⟨⟨[Token.mk "CA" "p1" (some "sub") (some [Token.mk "T" "sub" none none])]⟩,
        "P", []⟩).2.2.2).mpr
      ⟨List.mem_singleton.mpr rfl,
       TokenAtIn.sub (List.mem_singleton.mpr rfl) rfl
         (TokenAtIn.top (List.mem_singleton.mpr rfl) rfl)⟩
  · intro t ht
    rcases List.mem_singleton.mp ht with rfl
    simp [Token.position]

/-- Claim C2: every arrival at a parallel gateway creates one more token at
the gateway name; the join fires exactly when the token count equals the
number of incoming sequence flows, in which case all tokens at the gateway
are removed (tokens elsewhere survive) and one token is emitted along every
outgoing flow; otherwise nothing is emitted, the new token stays and the
state is persisted. -/
theorem claim_C2 (d : ProcessDefinition) (processId : String)
    (s : BPMNProcessState) (gw : FlowObject) :
    ((createTokenAt s gw.name processId).numberOfTokensAt gw.name
        = s.numberOfTokensAt gw.name + 1) ∧
    (s.numberOfTokensAt gw.name + 1 = (getIncomingSequenceFlows d gw).length →
      (parallelGatewayEmitTokens d processId s gw).persisted = false ∧
      (parallelGatewayEmitTokens d processId s gw).emitted
        = getOutgoingSequenceFlows d gw ∧
      (parallelGatewayEmitTokens d processId s gw).state.numberOfTokensAt gw.name = 0 ∧
      (parallelGatewayEmitTokens d processId s gw).state.tokens
        = s.tokens.filter (fun u => !(u.position = gw.name))) ∧
    (s.numberOfTokensAt gw.name + 1 ≠ (getIncomingSequenceFlows d gw).length →
      (parallelGatewayEmitTokens d processId s gw).persisted = true ∧
      (parallelGatewayEmitTokens d processId s gw).emitted = [] ∧
      (parallelGatewayEmitTokens d processId s gw).state.tokens
        = s.tokens ++ [Token.mk gw.name processId none none]) := by
  have hcount : (createTokenAt s gw.name processId).numberOfTokensAt gw.name
      = s.numberOfTokensAt gw.name + 1 := by
    unfold createTokenAt BPMNProcessState.numberOfTokensAt
    simp [List.countP_append, List.countP_cons, Token.position]
  have hstate : (createTokenAt s gw.name processId).tokens
      = s.tokens ++ [Token.mk gw.name processId none none] := by
    unfold createTokenAt
    simp
  refine ⟨hcount, ?_, ?_⟩
  · intro hfire
    have hsplit : parallelGatewayEmitTokens d processId s gw =
        { state := (createTokenAt s gw.name processId).removeAllTokensAt gw.name,
          emitted := getOutgoingSequenceFlows d gw,
          persisted := false } := by
      simp only [parallelGatewayEmitTokens]
      rw [hcount, if_pos hfire]
    have hfiltered : ((createTokenAt s gw.name processId).removeAllTokensAt gw.name).tokens
        = s.tokens.filter (fun u => !(u.position = gw.name)) := by
      unfold BPMNProcessState.removeAllTokensAt
      rw [hstate]
      simp [List.filter_append, Token.position]
    refine ⟨by rw [hsplit], by rw [hsplit], ?_, by rw [hsplit]; exact hfiltered⟩
    rw [hsplit]
    show ((createTokenAt s gw.name processId).removeAllTokensAt
      gw.name).numberOfTokensAt gw.name = 0
    unfold BPMNProcessState.numberOfTokensAt
    rw [hfiltered]
    rw [List.countP_eq_zero]
    intro u hu
    have := List.of_mem_filter hu
    simpa using this
  · intro hwait
    have hsplit : parallelGatewayEmitTokens d processId s gw =
        { state := createTokenAt s gw.name processId,
          emitted := [], persisted := true } := by
      simp only [parallelGatewayEmitTokens]
      rw [hcount, if_neg hwait]
    exact ⟨by rw [hsplit], by rw [hsplit], by rw [hsplit]; exact hstate⟩

/-- Witness for claim C2: a join with two incoming flows holding one token
fires on the second arrival, emitting along its outgoing flow and clearing
the gateway; on the first arrival into an empty state it only persists. -/
theorem claim_C2_witness :
    (0 + 1 : Nat) ≠ (getIncomingSequenceFlows
      ⟨[], [⟨"in1", "a1", "j1"⟩, ⟨"in2", "b1", "j1"⟩, ⟨"out", "j1", "e1"⟩]⟩
      { bpmnId := "j1", name := "JOIN", ty := "parallelGateway" }).length ∧
    (parallelGatewayEmitTokens
      ⟨[], [⟨"in1", "a1", "j1"⟩, ⟨"in2", "b1", "j1"⟩, ⟨"out", "j1", "e1"⟩]⟩
      "p" ⟨[]⟩
      { bpmnId := "j1", name := "JOIN", ty := "parallelGateway" }).persisted = true ∧
    (parallelGatewayEmitTokens
      ⟨[], [⟨"in1", "a1", "j1"⟩, ⟨"in2", "b1", "j1"⟩, ⟨"out", "j1", "e1"⟩]⟩
      "p" ⟨[Token.mk "JOIN" "p" none none]⟩
      { bpmnId := "j1", name := "JOIN", ty := "parallelGateway" }).persisted = false ∧
    (parallelGatewayEmitTokens
      ⟨[], [⟨"in1", "a1", "j1"⟩, ⟨"in2", "b1", "j1"⟩, ⟨"out", "j1", "e1"⟩]⟩
      "p" ⟨[Token.mk "JOIN" "p" none none]⟩
      { bpmnId := "j1", name := "JOIN", ty := "parallelGateway" }).emitted
        = [⟨"out", "j1", "e1"⟩] := by
  refine ⟨by decide, ?_, ?_, ?_⟩
  · exact ((claim_C2
      ⟨[], [⟨"in1", "a1", "j1"⟩, ⟨"in2", "b1", "j1"⟩, ⟨"out", "j1", "e1"⟩]⟩
      "p" ⟨[]⟩
      { bpmnId := "j1", name := "JOIN", ty := "parallelGateway" }).2.2
        (by decide)).1
  · exact ((claim_C2
      ⟨[], [⟨"in1", "a1", "j1"⟩, ⟨"in2", "b1", "j1"⟩, ⟨"out", "j1", "e1"⟩]⟩
      "p" ⟨[Token.mk "JOIN" "p" none none]⟩
      { bpmnId := "j1", name := "JOIN", ty := "parallelGateway" }).2.1
        (by decide)).1
  · exact (((claim_C2
      ⟨[], [⟨"in1", "a1", "j1"⟩, ⟨"in2", "b1", "j1"⟩, ⟨"out", "j1", "e1"⟩]⟩
      "p" ⟨[Token.mk "JOIN" "p" none none]⟩
      { bpmnId := "j1", name := "JOIN", ty := "parallelGateway" }).2.1
        (by decide)).2.1).trans (by decide)

theorem entryNamedIn_cons_of_tail {name : String} {e : HistoryEntry}
    {es : List HistoryEntry} (h : EntryNamedIn name es) :
    EntryNamedIn name (e :: es) := by
  cases h with
  | here hm hp => exact EntryNamedIn.here (List.mem_cons_of_mem _ hm) hp
  | deeper hm hs hin => exact EntryNamedIn.deeper (List.mem_cons_of_mem _ hm) hs hin

theorem bool_or_split {a b : Bool} (h : (a || b) = true) : a = true ∨ b = true := by
  cases a <;> simp_all

theorem visitedEntries_iff (name : String) :
    (es : List HistoryEntry) →
      ((entriesHasName name es || entriesSubVisited name es) = true ↔
        EntryNamedIn name es)
  | [] => by
      constructor
      · intro h
        rw [entriesHasName.eq_def, entriesSubVisited.eq_def] at h
        simp at h
      · intro h
        cases h with
        | here hm _ => exact absurd hm (List.not_mem_nil _)
        | deeper hm _ _ => exact absurd hm (List.not_mem_nil _)
  | HistoryEntry.mk n ty b e none :: es => by
      have ihtail := visitedEntries_iff name es
      constructor
      · intro h
        rcases bool_or_split h with h1 | h2
        · rw [entriesHasName.eq_def] at h1
          dsimp only at h1
          rcases bool_or_split h1 with hn | hx
          · exact EntryNamedIn.here (List.mem_cons_self _ _)
              (by simpa [HistoryEntry.name] using of_decide_eq_true hn)
          · exact entryNamedIn_cons_of_tail (ihtail.mp (by simp [hx]))
        · rw [entriesSubVisited.eq_def] at h2
          dsimp only at h2
          simp only [Bool.false_or] at h2
          exact entryNamedIn_cons_of_tail (ihtail.mp (by simp [h2]))
      · intro hin
        have step : (entriesHasName name es || entriesSubVisited name es) = true →
            (entriesHasName name (HistoryEntry.mk n ty b e none :: es) ||
              entriesSubVisited name (HistoryEntry.mk n ty b e none :: es)) = true := by
          intro ht
          rcases bool_or_split ht with hx | hy
          · rw [entriesHasName.eq_def]
            dsimp only
            simp [hx]
          · rw [entriesSubVisited.eq_def]
            dsimp only
            simp [hy]
        cases hin with
        | here hm hp =>
            rcases List.mem_cons.mp hm with rfl | hm2
            · rw [entriesHasName.eq_def]
              dsimp only
              simp only [HistoryEntry.name] at hp
              simp [hp]
            · exact step (ihtail.mpr (EntryNamedIn.here hm2 hp))
        | deeper hm hs hin2 =>
            rcases List.mem_cons.mp hm with rfl | hm2
            · simp [HistoryEntry.subhistory] at hs
            · exact step (ihtail.mpr (EntryNamedIn.deeper hm2 hs hin2))
  | HistoryEntry.mk n ty b e (some (BPMNProcessHistory.mk hes hc hf)) :: es => by
      have ihtail := visitedEntries_iff name es
      have ihsub := visitedEntries_iff name hes
      constructor
      · intro h
        rcases bool_or_split h with h1 | h2
        · rw [entriesHasName.eq_def] at h1
          dsimp only at h1
          rcases bool_or_split h1 with hn | hx
          · exact EntryNamedIn.here (List.mem_cons_self _ _)
              (by simpa [HistoryEntry.name] using of_decide_eq_true hn)
          · exact entryNamedIn_cons_of_tail (ihtail.mp (by simp [hx]))
        · rw [entriesSubVisited.eq_def] at h2
          dsimp only at h2
          rcases bool_or_split h2 with hs0 | hy
          · rw [hasBeenVisitedHistory.eq_def] at hs0
            dsimp only at hs0
            exact @EntryNamedIn.deeper name _ _ (BPMNProcessHistory.mk hes hc hf)
              (List.mem_cons_self _ _) rfl (ihsub.mp hs0)
          · exact entryNamedIn_cons_of_tail (ihtail.mp (by simp [hy]))
      · intro hin
        have step : (entriesHasName name es || entriesSubVisited name es) = true →
            (entriesHasName name
                (HistoryEntry.mk n ty b e (some (BPMNProcessHistory.mk hes hc hf)) :: es) ||
              entriesSubVisited name
                (HistoryEntry.mk n ty b e (some (BPMNProcessHistory.mk hes hc hf)) :: es)) = true := by
          intro ht
          rcases bool_or_split ht with hx | hy
          · rw [entriesHasName.eq_def]
            dsimp only
            simp [hx]
          · rw [entriesSubVisited.eq_def]
            dsimp only
            simp [hy]
        cases hin with
        | here hm hp =>
            rcases List.mem_cons.mp hm with rfl | hm2
            · rw [entriesHasName.eq_def]
              dsimp only
              simp only [HistoryEntry.name] at hp
              simp [hp]
            · exact step (ihtail.mpr (EntryNamedIn.here hm2 hp))
        | deeper hm hs hin2 =>
            rcases List.mem_cons.mp hm with rfl | hm2
            · simp only [HistoryEntry.subhistory, Option.some.injEq] at hs
              subst hs
              have hsubv : hasBeenVisitedHistory name (BPMNProcessHistory.mk hes hc hf) = true := by
                rw [hasBeenVisitedHistory.eq_def]
                dsimp only
                exact ihsub.mpr (by simpa [BPMNProcessHistory.historyEntries] using hin2)
              rw [entriesSubVisited.eq_def]
              dsimp only
              simp [hsubv]
            · exact step (ihtail.mpr (EntryNamedIn.deeper hm2 hs hin2))

theorem hasBeenVisited_iff (h : BPMNProcessHistory) (name : String) :
    h.hasBeenVisited name = true ↔ EntryNamedIn name h.historyEntries := by
  cases h with
  | mk es c f =>
      rw [show (BPMNProcessHistory.mk es c f).hasBeenVisited name
          = (entriesHasName name es || entriesSubVisited name es) from by
        unfold BPMNProcessHistory.hasBeenVisited
        rw [hasBeenVisitedHistory.eq_def]]
      exact visitedEntries_iff name es

/-- Claim C4: when the event name resolves to a start event, triggerEvent
puts a token on it (and appends the begin history entry) exactly when no
history entry, including entries of subhistories, bears that name; otherwise
it fails with the AlreadyStarted error leaving state and history unchanged. -/
theorem claim_C4 (d : ProcessDefinition) (processId : String) (now : Nat)
    (st : BPMNProcessState) (hist : BPMNProcessHistory) (eventName : String)
    (fo : FlowObject) (hfo : getFlowObjectByName d eventName = some fo)
    (hstart : fo.isStartEvent = true) :
    (¬ EntryNamedIn eventName hist.historyEntries →
      triggerEvent d processId now st hist eventName =
        ⟨createTokenAt st fo.name processId, hist.addEntry now fo,
         TriggerOutcome.tokenPut⟩) ∧
    (EntryNamedIn eventName hist.historyEntries →
      triggerEvent d processId now st hist eventName =
        ⟨st, hist, TriggerOutcome.errAlreadyStarted⟩) := by
  constructor
  · intro hnv
    have hb : hist.hasBeenVisited eventName = false := by
      rw [← Bool.not_eq_true, hasBeenVisited_iff]
      exact hnv
    simp [triggerEvent, hfo, hstart, hb]
  · intro hv
    have hb : hist.hasBeenVisited eventName = true :=
      (hasBeenVisited_iff hist eventName).mpr hv
    simp [triggerEvent, hfo, hstart, hb]

/-- Witness for claim C4: triggering the start event S of a fresh instance
places a token on S and logs the entry; on a history already containing S
the call fails with AlreadyStarted and changes nothing. -/
theorem claim_C4_witness :
    triggerEvent
      ⟨[{ bpmnId := "s1", name := "S", ty := "startEvent", isStartEvent := true }], []⟩
      "p1" 7 ⟨[]⟩ (BPMNProcessHistory.mk [] 1 none) "S" =
      ⟨⟨[Token.mk "S" "p1" none none]⟩,
       BPMNProcessHistory.mk [HistoryEntry.mk "S" "startEvent" 7 none none] 1 none,
       TriggerOutcome.tokenPut⟩ ∧
    triggerEvent
      ⟨[{ bpmnId := "s1", name := "S", ty := "startEvent", isStartEvent := true }], []⟩
      "p1" 7 ⟨[]⟩
      (BPMNProcessHistory.mk [HistoryEntry.mk "S" "startEvent" 3 (some 4) none] 1 none)
      "S" =
      ⟨⟨[]⟩,
       BPMNProcessHistory.mk [HistoryEntry.mk "S" "startEvent" 3 (some 4) none] 1 none,
       TriggerOutcome.errAlreadyStarted⟩ := by
  constructor
  · exact (claim_C4
      ⟨[{ bpmnId := "s1", name := "S", ty := "startEvent", isStartEvent := true }], []⟩
      "p1" 7 ⟨[]⟩ (BPMNProcessHistory.mk [] 1 none) "S"
      { bpmnId := "s1", name := "S", ty := "startEvent", isStartEvent := true }
      (by decide) rfl).1
      (by
        intro h
        cases h with
        | here hm _ => exact absurd hm (List.not_mem_nil _)
        | deeper hm _ _ => exact absurd hm (List.not_mem_nil _))
  · exact (claim_C4
      ⟨[{ bpmnId := "s1", name := "S", ty := "startEvent", isStartEvent := true }], []⟩
      "p1" 7 ⟨[]⟩
      (BPMNProcessHistory.mk [HistoryEntry.mk "S" "startEvent" 3 (some 4) none] 1 none)
      "S"
      { bpmnId := "s1", name := "S", ty := "startEvent", isStartEvent := true }
      (by decide) rfl).2
      (EntryNamedIn.here (List.mem_singleton.mpr rfl) rfl)

theorem storeTimeout_not_mem :
    ∀ (m : TimeoutMap) (nm : String) (t : Timeout),
      nm ∉ List.map Prod.fst m → storeTimeout m nm t = m ++ [(nm, t)]
  | [], nm, t, _ => rfl
  | (k, v) :: rest, nm, t, h => by
      have hk : ¬(k = nm) := by
        intro hkeq
        exact h (by simp [hkeq])
      unfold storeTimeout
      rw [if_neg hk]
      rw [storeTimeout_not_mem rest nm t (fun hm => h (by simp [hm]))]
      simp

theorem removeTimeoutEntry_not_mem (m : TimeoutMap) (nm : String)
    (h : nm ∉ List.map Prod.fst m) : removeTimeoutEntry m nm = m := by
  unfold removeTimeoutEntry
  apply List.filter_eq_self.mpr
  intro p hp
  have hne : ¬(p.1 = nm) := by
    intro he
    apply h
    rw [← he]
    exact List.mem_map_of_mem Prod.fst hp
  simp [hne]

theorem restoreFold (eventHandler : String → Option Int) (now : Int) :
    ∀ (ps : List (String × Timeout)) (m0 : TimeoutMap)
      (acts0 : List (String × TimerAction)),
      (∀ q ∈ ps,
        (callHandlerNum eventHandler (q.1 ++ getTimeoutHandlerSuffix)).isSome = true) →
      (ps.map Prod.fst).Nodup →
      (∀ q ∈ ps, q.1 ∉ List.map Prod.fst m0) →
      ps.foldl
        (fun acc p =>
          match acc with
          | none => none
          | some (m, acts) =>
              match addTimerEvent eventHandler now m p.1 (some p.2) with
              | none => none
              | some (m1, TimerAction.scheduled diff) =>
                  some (m1, acts ++ [(p.1, TimerAction.scheduled diff)])
              | some (m1, TimerAction.firedImmediately) =>
                  some (removeTimeoutEntry m1 p.1,
                    acts ++ [(p.1, TimerAction.firedImmediately)]))
        (some (m0, acts0)) =
      some (m0 ++ ps.filter (fun q => decide (q.2.atMs - now > 0)),
            acts0 ++ ps.map (fun q => (q.1,
              if q.2.atMs - now > 0 then TimerAction.scheduled (q.2.atMs - now)
              else TimerAction.firedImmediately)))
  | [], m0, acts0, _, _, _ => by simp
  | (nm, t) :: ps, m0, acts0, henv, hnd, hm0 => by
      obtain ⟨k, hk⟩ := Option.isSome_iff_exists.mp
        (henv (nm, t) (List.mem_cons_self _ _))
      have hnm0 : nm ∉ List.map Prod.fst m0 := hm0 (nm, t) (List.mem_cons_self _ _)
      have hstore : storeTimeout m0 nm t = m0 ++ [(nm, t)] :=
        storeTimeout_not_mem m0 nm t hnm0
      have hndtail : (ps.map Prod.fst).Nodup := (List.nodup_cons.mp hnd).2
      have hnmtail : nm ∉ ps.map Prod.fst := (List.nodup_cons.mp hnd).1
      have henvtail : ∀ q ∈ ps,
          (callHandlerNum eventHandler (q.1 ++ getTimeoutHandlerSuffix)).isSome = true :=
        fun q hq => henv q (List.mem_cons_of_mem _ hq)
      have hk2 : callHandlerNum eventHandler (nm ++ getTimeoutHandlerSuffix) = some k := hk
      rw [List.foldl_cons]
      by_cases hlive : t.atMs - now > 0
      · have hadd : addTimerEvent eventHandler now m0 nm (some t) =
            some (m0 ++ [(nm, t)], TimerAction.scheduled (t.atMs - now)) := by
          unfold addTimerEvent
          dsimp only
          rw [hk2]
          dsimp only [Option.getD]
          rw [hstore, if_pos hlive]
        have hkeys : ∀ q ∈ ps, q.1 ∉ List.map Prod.fst (m0 ++ [(nm, t)]) := by
          intro q hq
          simp only [List.map_append, List.mem_append, List.map_cons, List.map_nil,
            List.mem_singleton]
          rintro (hin | heq)
          · exact hm0 q (List.mem_cons_of_mem _ hq) hin
          · exact hnmtail (heq ▸ List.mem_map_of_mem Prod.fst hq)
        have ih := restoreFold eventHandler now ps (m0 ++ [(nm, t)])
          (acts0 ++ [(nm, TimerAction.scheduled (t.atMs - now))])
          henvtail hndtail hkeys
        dsimp only
        rw [hadd]
        dsimp only
        rw [ih]
        have hlt : now < t.atMs := by omega
        simp [List.filter_cons, hlive, hlt]
      · have hadd : addTimerEvent eventHandler now m0 nm (some t) =
            some (m0 ++ [(nm, t)], TimerAction.firedImmediately) := by
          unfold addTimerEvent
          dsimp only
          rw [hk2]
          dsimp only [Option.getD]
          rw [hstore, if_neg hlive]
        have hremove : removeTimeoutEntry (m0 ++ [(nm, t)]) nm = m0 := by
          unfold removeTimeoutEntry
          rw [List.filter_append]
          have h1 : List.filter (fun p => !(p.1 = nm)) m0 = m0 := by
            have := removeTimeoutEntry_not_mem m0 nm hnm0
            unfold removeTimeoutEntry at this
            exact this
          rw [h1]
          simp
        have ih := restoreFold eventHandler now ps m0
          (acts0 ++ [(nm, TimerAction.firedImmediately)])
          henvtail hndtail (fun q hq => hm0 q (List.mem_cons_of_mem _ hq))
        dsimp only
        rw [hadd]
        dsimp only
        rw [hremove, ih]
        have hnlt : ¬(now < t.atMs) := by omega
        simp [List.filter_cons, hlive, hnlt]

theorem entryWF_parts {n ty : String} {b : Nat} {e : Option Nat}
    {sub : Option BPMNProcessHistory}
    (h : entryWF (.mk n ty b e sub) = true) :
    b ≠ 0 ∧ e ≠ some 0 ∧ ∀ hh, sub = some hh → historyWF hh = true := by
  rw [entryWF.eq_def] at h
  dsimp only at h
  simp only [Bool.and_eq_true, bne_iff_ne, ne_eq] at h
  refine ⟨h.1.1, h.1.2, ?_⟩
  intro hh hsub
  subst hsub
  exact h.2

theorem entriesWF_parts {e : HistoryEntry} {es : List HistoryEntry}
    (h : entriesWF (e :: es) = true) : entryWF e = true ∧ entriesWF es = true := by
  rw [entriesWF.eq_def] at h
  dsimp only at h
  simp only [Bool.and_eq_true] at h
  exact h

theorem historyWF_parts {es : List HistoryEntry} {c : Nat} {f : Option Nat}
    (h : historyWF (.mk es c f) = true) : entriesWF es = true ∧ f ≠ some 0 := by
  rw [historyWF.eq_def] at h
  dsimp only at h
  simp only [Bool.and_eq_true, bne_iff_ne, ne_eq] at h
  exact h

mutual
theorem copyEntry_eq (now : Nat) :
    (e : HistoryEntry) → entryWF e = true → copyEntry now e = e
  | .mk n ty b e sub, hwf => by
      obtain ⟨hb, he, hsub⟩ := entryWF_parts hwf
      rw [copyEntry.eq_def]
      dsimp only
      rw [if_neg hb]
      cases e with
      | none =>
          cases sub with
          | none => rfl
          | some h => dsimp only; rw [copyHistory_eq now h (hsub h rfl)]
      | some v =>
          have hv : v ≠ 0 := fun h0 => he (by rw [h0])
          cases sub with
          | none => dsimp only; rw [if_neg hv]
          | some h => dsimp only; rw [if_neg hv, copyHistory_eq now h (hsub h rfl)]
termination_by e => sizeOf e

theorem copyEntries_eq (now : Nat) :
    (es : List HistoryEntry) → entriesWF es = true → copyEntries now es = es
  | [], _ => rfl
  | e :: es, hwf => by
      obtain ⟨h1, h2⟩ := entriesWF_parts hwf
      rw [copyEntries.eq_def]
      dsimp only
      rw [copyEntry_eq now e h1, copyEntries_eq now es h2]
termination_by es => sizeOf es

theorem copyHistory_eq (now : Nat) :
    (h : BPMNProcessHistory) → historyWF h = true → copyHistory now h = h
  | .mk es c f, hwf => by
      obtain ⟨h1, h2⟩ := historyWF_parts hwf
      rw [copyHistory.eq_def]
      dsimp only
      rw [copyEntries_eq now es h1]
      cases f with
      | none => rfl
      | some v =>
          have hv : v ≠ 0 := fun h0 => h2 (by rw [h0])
          dsimp only
          rw [if_neg hv]
termination_by h => sizeOf h
end

/-- Claim C7: addTimerEvent with a persisted timeout stores exactly that
persisted object (not a freshly computed one) under the timer name and
schedules after diff = at - now when positive, else fires immediately;
restoreTimerEvents does this for every persisted entry, the immediately
fired ones being removed again by their own callback. -/
theorem claim_C7 (eventHandler : String → Option Int) (now : Int) :
    (∀ (m : TimeoutMap) (timerEventName : String) (p : Timeout) (k : Int),
      callHandlerNum eventHandler (timerEventName ++ getTimeoutHandlerSuffix) = some k →
      addTimerEvent eventHandler now m timerEventName (some p) =
        some (storeTimeout m timerEventName p,
          if p.atMs - now > 0 then TimerAction.scheduled (p.atMs - now)
          else TimerAction.firedImmediately)) ∧
    (∀ pendingTimeouts : List (String × Timeout),
      (∀ q ∈ pendingTimeouts,
        (callHandlerNum eventHandler (q.1 ++ getTimeoutHandlerSuffix)).isSome = true) →
      (pendingTimeouts.map Prod.fst).Nodup →
      restoreTimerEvents eventHandler now pendingTimeouts =
        some (pendingTimeouts.filter (fun q => decide (q.2.atMs - now > 0)),
          pendingTimeouts.map (fun q => (q.1,
            if q.2.atMs - now > 0 then TimerAction.scheduled (q.2.atMs - now)
            else TimerAction.firedImmediately)))) := by
  constructor
  · intro m timerEventName p k hk
    unfold addTimerEvent
    dsimp only
    rw [hk]
    dsimp only [Option.getD]
    by_cases hl : p.atMs - now > 0
    · rw [if_pos hl, if_pos hl]
    · rw [if_neg hl, if_neg hl]
  · intro pendingTimeouts henv hnd
    unfold restoreTimerEvents
    rw [restoreFold eventHandler now pendingTimeouts [] [] henv hnd (by simp)]
    simp

/-- Witness for claim C7: one persisted timer at epoch 50 restored at time
10 is stored as-is and scheduled for 40 more milliseconds. -/
theorem claim_C7_witness :
    addTimerEvent (fun s => if s = "E$getTimeout" then some 100 else none) 10
      [] "E" (some ⟨50, 100⟩) =
      some ([("E", ⟨50, 100⟩)], TimerAction.scheduled 40) ∧
    restoreTimerEvents (fun s => if s = "E$getTimeout" then some 100 else none) 10
      [("E", ⟨50, 100⟩)] =
      some ([("E", ⟨50, 100⟩)], [("E", TimerAction.scheduled 40)]) := by
  constructor
  · exact ((claim_C7 (fun s => if s = "E$getTimeout" then some 100 else none) 10).1
      [] "E" ⟨50, 100⟩ 100 (by decide)).trans (by decide)
  · exact ((claim_C7 (fun s => if s = "E$getTimeout" then some 100 else none) 10).2
      [("E", ⟨50, 100⟩)]
      (by
        intro q hq
        rcases List.mem_singleton.mp hq with rfl
        decide)
      (by decide)).trans (by decide)

/-- Claim C3: loading back the document persisted for a main process
instance restores state (tokens with their call-activity substates),
history (entries with subhistories, createdAt, finishedAt), properties and
pendingTimeouts exactly, for every instance whose run-time data is
well-formed: Date.now timestamps are nonzero, timer names are unique object
keys, the getTimeout handlers exist, and no persisted timer has already
expired (an expired one fires at load, which is the permitted wall-clock
rescheduling difference). -/
theorem claim_C3 (eventHandler : String → Option Int) (now : Nat)
    (i : ProcessInstance)
    (hwf : historyWF i.history = true)
    (hkeys : (i.pendingTimeouts.map Prod.fst).Nodup)
    (henv : ∀ q ∈ i.pendingTimeouts,
      (callHandlerNum eventHandler (q.1 ++ getTimeoutHandlerSuffix)).isSome = true)
    (hlive : ∀ q ∈ i.pendingTimeouts, Int.ofNat now < q.2.atMs) :
    setPersistedData eventHandler now i (persist i) = some i := by
  have hres : restoreTimerEvents eventHandler (Int.ofNat now) i.pendingTimeouts =
      some (i.pendingTimeouts,
        i.pendingTimeouts.map
          (fun q => (q.1, TimerAction.scheduled (q.2.atMs - Int.ofNat now)))) := by
    unfold restoreTimerEvents
    rw [restoreFold eventHandler (Int.ofNat now) i.pendingTimeouts [] []
      henv hkeys (by simp)]
    have hfil : i.pendingTimeouts.filter
        (fun q => decide (q.2.atMs - Int.ofNat now > 0)) = i.pendingTimeouts := by
      apply List.filter_eq_self.mpr
      intro q hq
      exact decide_eq_true (by have := hlive q hq; omega)
    rw [hfil]
    simp only [List.nil_append]
    have hmap : i.pendingTimeouts.map (fun q => (q.1,
        if q.2.atMs - Int.ofNat now > 0 then TimerAction.scheduled (q.2.atMs - Int.ofNat now)
        else TimerAction.firedImmediately)) =
        i.pendingTimeouts.map
          (fun q => (q.1, TimerAction.scheduled (q.2.atMs - Int.ofNat now))) := by
      apply List.map_congr_left
      intro q hq
      have hq2 : q.2.atMs - Int.ofNat now > 0 := by have := hlive q hq; omega
      simp only [if_pos hq2]
    rw [hmap]
  unfold setPersistedData persist
  dsimp only
  rw [hres]
  have hh : copyHistory now i.history = i.history := copyHistory_eq now i.history hwf
  dsimp only
  rw [hh]

/-- Witness for claim C3: a concrete instance with a token, a finished
history entry carrying a subhistory, a property and one live pending timer
survives the persist/load round trip unchanged. -/
theorem claim_C3_witness :
    setPersistedData (fun s => if s = "E$getTimeout" then some 100 else none) 10
      ⟨"P", "p1", none, [("k", "v")],
       ⟨[Token.mk "T" "p1" none none]⟩,
       BPMNProcessHistory.mk
         [HistoryEntry.mk "CA" "callActivity" 3 (some 4)
           (some (BPMNProcessHistory.mk
             [HistoryEntry.mk "S" "startEvent" 3 (some 4) none] 3 none))] 2 none,
       [("E", ⟨50, 100⟩)], ⟨none, none, none⟩⟩
      (persist
        ⟨"P", "p1", none, [("k", "v")],
         ⟨[Token.mk "T" "p1" none none]⟩,
         BPMNProcessHistory.mk
           [HistoryEntry.mk "CA" "callActivity" 3 (some 4)
             (some (BPMNProcessHistory.mk
               [HistoryEntry.mk "S" "startEvent" 3 (some 4) none] 3 none))] 2 none,
         [("E", ⟨50, 100⟩)], ⟨none, none, none⟩⟩) =
      some
        ⟨"P", "p1", none, [("k", "v")],
         ⟨[Token.mk "T" "p1" none none]⟩,
         BPMNProcessHistory.mk
           [HistoryEntry.mk "CA" "callActivity" 3 (some 4)
             (some (BPMNProcessHistory.mk
               [HistoryEntry.mk "S" "startEvent" 3 (some 4) none] 3 none))] 2 none,
         [("E", ⟨50, 100⟩)], ⟨none, none, none⟩⟩ := by
  exact claim_C3 (fun s => if s = "E$getTimeout" then some 100 else none) 10
    ⟨"P", "p1", none, [("k", "v")],
     ⟨[Token.mk "T" "p1" none none]⟩,
     BPMNProcessHistory.mk
       [HistoryEntry.mk "CA" "callActivity" 3 (some 4)
         (some (BPMNProcessHistory.mk
           [HistoryEntry.mk "S" "startEvent" 3 (some 4) none] 3 none))] 2 none,
     [("E", ⟨50, 100⟩)], ⟨none, none, none⟩⟩
    (by simp [historyWF, entriesWF, entryWF])
    (by decide)
    (by
      intro q hq
      rcases List.mem_singleton.mp hq with rfl
      decide)
    (by
      intro q hq
      rcases List.mem_singleton.mp hq with rfl
      decide)

theorem idempotenceId_ne_empty (pn pid mn mid : String) :
    idempotenceId pn pid mn mid ≠ "" := by
  unfold idempotenceId
  intro h
  have hlen := congrArg String.length h
  simp [String.length_append] at hlen
  exact absurd hlen.1.1.1.2 (by decide)

/-- Counterexample for claim C5 as stated: the idempotence key is the
dot-joined concatenation of the four path parameters, which is not
injective. The distinct tuples (a, b, c, d.e) and (a, b, c.d, e) collide on
the key a.b.c.d.e, so after the first tuple was PUT, the FIRST PUT of the
second tuple answers 200 and does not trigger the event (the process value
stays 0 instead of being stepped to 1), contradicting the claim that the
first PUT of every tuple triggers and returns 201. -/
theorem claim_C5_counterexample :
    (("a", "b", "c", "d.e") ≠ (("a", "b", "c.d", "e") : String × String × String × String)) ∧
    idempotenceId "a" "b" "c" "d.e" = idempotenceId "a" "b" "c.d" "e" ∧
    (restSendMessage (fun (p : Nat) _ => p + 1) [] 0 "a" "b" "c" "d.e").2.2 = 201 ∧
    (restSendMessage (fun (p : Nat) _ => p + 1)
        (restSendMessage (fun (p : Nat) _ => p + 1) [] 0 "a" "b" "c" "d.e").1
        (restSendMessage (fun (p : Nat) _ => p + 1) [] 0 "a" "b" "c" "d.e").2.1
        "a" "b" "c.d" "e").2.2 = 200 ∧
    (restSendMessage (fun (p : Nat) _ => p + 1)
        (restSendMessage (fun (p : Nat) _ => p + 1) [] 0 "a" "b" "c" "d.e").1
        (restSendMessage (fun (p : Nat) _ => p + 1) [] 0 "a" "b" "c" "d.e").2.1
        "a" "b" "c.d" "e").2.1 =
      (restSendMessage (fun (p : Nat) _ => p + 1) [] 0 "a" "b" "c" "d.e").2.1 := by
  refine ⟨by decide, by decide, by decide, by decide, by decide⟩

/-- Claim C5 (amended): for any tuple whose dot-joined key
processName.id.messageName.messageId was not seen before, the PUT records
the key, triggers the event on the process and returns 201; any PUT whose
key was already seen (in particular every second and subsequent PUT of the
same tuple) returns 200 with the current view and changes neither the
process nor the received-key set. Tuples are identified by their dot-joined
key, so distinct tuples with the same key are treated as duplicates. -/
theorem claim_C5_amended {Proc : Type} (triggerEventFn : Proc → String → Proc)
    (received : List String) (bpmnProcess : Proc)
    (processName processId messageName messageId : String) :
    (idempotenceId processName processId messageName messageId ∉ received →
      restSendMessage triggerEventFn received bpmnProcess
          processName processId messageName messageId =
        (idempotenceId processName processId messageName messageId :: received,
         triggerEventFn bpmnProcess messageName, 201)) ∧
    (idempotenceId processName processId messageName messageId ∈ received →
      restSendMessage triggerEventFn received bpmnProcess
          processName processId messageName messageId =
        (received, bpmnProcess, 200)) := by
  have hne : idempotenceId processName processId messageName messageId ≠ "" :=
    idempotenceId_ne_empty processName processId messageName messageId
  constructor
  · intro hnm
    have hcont : received.contains
        (idempotenceId processName processId messageName messageId) = false := by
      rw [← Bool.not_eq_true]
      intro hc
      exact hnm (List.elem_iff.mp hc)
    unfold restSendMessage hasBeenAlreadyReceived
    dsimp only
    rw [if_neg hne, hcont]
    simp
  · intro hm
    have hcont : received.contains
        (idempotenceId processName processId messageName messageId) = true :=
      List.elem_iff.mpr hm
    unfold restSendMessage hasBeenAlreadyReceived
    dsimp only
    rw [if_neg hne, hcont]
    simp

/-- Witness for the amended claim C5: a fresh PUT of (P, 1, evt, m1)
records the key, steps the process and returns 201; repeating it returns
200 and changes nothing. -/
theorem claim_C5_amended_witness :
    (idempotenceId "P" "1" "evt" "m1" ∉ ([] : List String)) ∧
    restSendMessage (fun (p : Nat) _ => p + 1) [] 0 "P" "1" "evt" "m1" =
      ([idempotenceId "P" "1" "evt" "m1"], 1, 201) ∧
    restSendMessage (fun (p : Nat) _ => p + 1)
        [idempotenceId "P" "1" "evt" "m1"] 1 "P" "1" "evt" "m1" =
      ([idempotenceId "P" "1" "evt" "m1"], 1, 200) := by
  refine ⟨by decide, ?_, ?_⟩
  · exact (claim_C5_amended (fun (p : Nat) _ => p + 1) [] 0 "P" "1" "evt" "m1").1
      (by decide)
  · exact (claim_C5_amended (fun (p : Nat) _ => p + 1)
      [idempotenceId "P" "1" "evt" "m1"] 1 "P" "1" "evt" "m1").2
      (List.mem_singleton.mpr rfl)

theorem foldr_putTokenAt (succs : List String) :
    succs.foldr (fun s acc => putTokenAtTrace s acc) [] =
      succs.bind (fun s => [EngineAction.createToken s, EngineAction.histBegin s,
        EngineAction.emitTokenArrived s]) := by
  induction succs with
  | nil => rfl
  | cons s rest ih =>
      simp only [List.foldr_cons, List.cons_bind, ih]
      rfl

theorem flowObjectStepTrace_eq (n : String) (succs : List String) :
    flowObjectStepTrace n succs =
      [EngineAction.createToken n, EngineAction.histBegin n,
       EngineAction.emitTokenArrived n, EngineAction.runHandler n,
       EngineAction.handlerDone n, EngineAction.removeToken n,
       EngineAction.histEnd n] ++
      succs.bind (fun s => [EngineAction.createToken s, EngineAction.histBegin s,
        EngineAction.emitTokenArrived s]) := by
  unfold flowObjectStepTrace putTokenAtTrace onFlowObjectBeginTrace
    tokenArrivedTrace emitTokensDefaultTrace onFlowObjectEndTrace
  rw [foldr_putTokenAt]
  rfl

theorem get?_append_cases {a : Type} (l1 l2 : List a) (i : Nat) (x : a)
    (h : (l1 ++ l2).get? i = some x) :
    (i < l1.length ∧ l1.get? i = some x) ∨
    (l1.length ≤ i ∧ l2.get? (i - l1.length) = some x) := by
  by_cases hi : i < l1.length
  · exact Or.inl ⟨hi, by rwa [List.get?_append hi] at h⟩
  · exact Or.inr ⟨Nat.le_of_not_lt hi,
      by rwa [List.get?_append_right (Nat.le_of_not_lt hi)] at h⟩

theorem mem_sucActions {x : EngineAction} {succs : List String}
    (h : x ∈ succs.bind (fun s => [EngineAction.createToken s,
      EngineAction.histBegin s, EngineAction.emitTokenArrived s])) :
    ∃ s ∈ succs, x = EngineAction.createToken s ∨ x = EngineAction.histBegin s ∨
      x = EngineAction.emitTokenArrived s := by
  rcases List.mem_bind.mp h with ⟨s, hs, hmem⟩
  refine ⟨s, hs, ?_⟩
  simpa using hmem

theorem preList_index (n : String) (x : EngineAction) (i : Nat) (hi : i < 7)
    (h : [EngineAction.createToken n, EngineAction.histBegin n,
      EngineAction.emitTokenArrived n, EngineAction.runHandler n,
      EngineAction.handlerDone n, EngineAction.removeToken n,
      EngineAction.histEnd n].get? i = some x) :
    x = [EngineAction.createToken n, EngineAction.histBegin n,
      EngineAction.emitTokenArrived n, EngineAction.runHandler n,
      EngineAction.handlerDone n, EngineAction.removeToken n,
      EngineAction.histEnd n].getD i (EngineAction.createToken n) := by
  match i with
  | 0 => simpa [List.get?] using h.symm
  | 1 => simpa [List.get?] using h.symm
  | 2 => simpa [List.get?] using h.symm
  | 3 => simpa [List.get?] using h.symm
  | 4 => simpa [List.get?] using h.symm
  | 5 => simpa [List.get?] using h.symm
  | 6 => simpa [List.get?] using h.symm
  | m + 7 => omega

/-- Claim C6: in the processing step of one token arrival at a default flow
object, the history entry with the begin timestamp is appended before the
user handler runs; the end timestamp is set after the handler completion
(its done callback) and before any token is placed on a successor flow
object. -/
theorem claim_C6 (n : String) (succs : List String) (hn : n ∉ succs) :
    OccursBefore (EngineAction.histBegin n) (EngineAction.runHandler n)
      (flowObjectStepTrace n succs) ∧
    OccursBefore (EngineAction.handlerDone n) (EngineAction.histEnd n)
      (flowObjectStepTrace n succs) ∧
    ∀ s ∈ succs, OccursBefore (EngineAction.histEnd n) (EngineAction.createToken s)
      (flowObjectStepTrace n succs) := by
  have hform := flowObjectStepTrace_eq n succs
  have hpin : ∀ (x : EngineAction) (k : Nat),
      (x ∉ succs.bind (fun s => [EngineAction.createToken s,
        EngineAction.histBegin s, EngineAction.emitTokenArrived s])) →
      (∀ i, i < 7 →
        ([EngineAction.createToken n, EngineAction.histBegin n,
          EngineAction.emitTokenArrived n, EngineAction.runHandler n,
          EngineAction.handlerDone n, EngineAction.removeToken n,
          EngineAction.histEnd n].get? i = some x → i = k)) →
      ∀ i, (flowObjectStepTrace n succs).get? i = some x → i = k := by
    intro x k hnsuf hpre i hi
    rw [hform] at hi
    rcases get?_append_cases _ _ i x hi with ⟨hlt, hget⟩ | ⟨_, hget⟩
    · exact hpre i (by simpa using hlt) hget
    · exact absurd (List.get?_mem hget) hnsuf
  have hbeginNotSuf : EngineAction.histBegin n ∉
      succs.bind (fun s => [EngineAction.createToken s,
        EngineAction.histBegin s, EngineAction.emitTokenArrived s]) := by
    intro hmem
    rcases mem_sucActions hmem with ⟨s, hs, h1 | h1 | h1⟩
    · exact EngineAction.noConfusion h1
    · injection h1 with he
      exact hn (he ▸ hs)
    · exact EngineAction.noConfusion h1
  have hrunNotSuf : EngineAction.runHandler n ∉
      succs.bind (fun s => [EngineAction.createToken s,
        EngineAction.histBegin s, EngineAction.emitTokenArrived s]) := by
    intro hmem
    rcases mem_sucActions hmem with ⟨s, hs, h1 | h1 | h1⟩ <;>
      exact EngineAction.noConfusion h1
  have hdoneNotSuf : EngineAction.handlerDone n ∉
      succs.bind (fun s => [EngineAction.createToken s,
        EngineAction.histBegin s, EngineAction.emitTokenArrived s]) := by
    intro hmem
    rcases mem_sucActions hmem with ⟨s, hs, h1 | h1 | h1⟩ <;>
      exact EngineAction.noConfusion h1
  have hendNotSuf : EngineAction.histEnd n ∉
      succs.bind (fun s => [EngineAction.createToken s,
        EngineAction.histBegin s, EngineAction.emitTokenArrived s]) := by
    intro hmem
    rcases mem_sucActions hmem with ⟨s, hs, h1 | h1 | h1⟩ <;>
      exact EngineAction.noConfusion h1
  have hbegin1 : ∀ i, (flowObjectStepTrace n succs).get? i =
      some (EngineAction.histBegin n) → i = 1 := by
    apply hpin _ 1 hbeginNotSuf
    intro i hi7 hget
    have hx := preList_index n _ i hi7 hget
    match i, hx with
    | 0, hx => exact absurd hx (by simp [List.getD])
    | 1, _ => rfl
    | 2, hx => exact absurd hx (by simp [List.getD])
    | 3, hx => exact absurd hx (by simp [List.getD])
    | 4, hx => exact absurd hx (by simp [List.getD])
    | 5, hx => exact absurd hx (by simp [List.getD])
    | 6, hx => exact absurd hx (by simp [List.getD])
  have hrun3 : ∀ i, (flowObjectStepTrace n succs).get? i =
      some (EngineAction.runHandler n) → i = 3 := by
    apply hpin _ 3 hrunNotSuf
    intro i hi7 hget
    have hx := preList_index n _ i hi7 hget
    match i, hx with
    | 0, hx => exact absurd hx (by simp [List.getD])
    | 1, hx => exact absurd hx (by simp [List.getD])
    | 2, hx => exact absurd hx (by simp [List.getD])
    | 3, _ => rfl
    | 4, hx => exact absurd hx (by simp [List.getD])
    | 5, hx => exact absurd hx (by simp [List.getD])
    | 6, hx => exact absurd hx (by simp [List.getD])
  have hdone4 : ∀ i, (flowObjectStepTrace n succs).get? i =
      some (EngineAction.handlerDone n) → i = 4 := by
    apply hpin _ 4 hdoneNotSuf
    intro i hi7 hget
    have hx := preList_index n _ i hi7 hget
    match i, hx with
    | 0, hx => exact absurd hx (by simp [List.getD])
    | 1, hx => exact absurd hx (by simp [List.getD])
    | 2, hx => exact absurd hx (by simp [List.getD])
    | 3, hx => exact absurd hx (by simp [List.getD])
    | 4, _ => rfl
    | 5, hx => exact absurd hx (by simp [List.getD])
    | 6, hx => exact absurd hx (by simp [List.getD])
  have hend6 : ∀ i, (flowObjectStepTrace n succs).get? i =
      some (EngineAction.histEnd n) → i = 6 := by
    apply hpin _ 6 hendNotSuf
    intro i hi7 hget
    have hx := preList_index n _ i hi7 hget
    match i, hx with
    | 0, hx => exact absurd hx (by simp [List.getD])
    | 1, hx => exact absurd hx (by simp [List.getD])
    | 2, hx => exact absurd hx (by simp [List.getD])
    | 3, hx => exact absurd hx (by simp [List.getD])
    | 4, hx => exact absurd hx (by simp [List.getD])
    | 5, hx => exact absurd hx (by simp [List.getD])
    | 6, _ => rfl
  have hget1 : (flowObjectStepTrace n succs).get? 1 =
      some (EngineAction.histBegin n) := by
    rw [hform]
    rfl
  have hget4 : (flowObjectStepTrace n succs).get? 4 =
      some (EngineAction.handlerDone n) := by
    rw [hform]
    rfl
  have hget6 : (flowObjectStepTrace n succs).get? 6 =
      some (EngineAction.histEnd n) := by
    rw [hform]
    rfl
  refine ⟨⟨⟨1, hget1⟩, ?_⟩, ⟨⟨4, hget4⟩, ?_⟩, ?_⟩
  · intro i j hi hj
    rw [hbegin1 i hi, hrun3 j hj]
    decide
  · intro i j hi hj
    rw [hdone4 i hi, hend6 j hj]
    decide
  · intro s hs
    have hsne : s ≠ n := fun he => hn (he ▸ hs)
    refine ⟨⟨6, hget6⟩, ?_⟩
    intro i j hi hj
    rw [hend6 i hi]
    rw [hform] at hj
    rcases get?_append_cases _ _ j (EngineAction.createToken s) hj
      with ⟨hlt, hget⟩ | ⟨hge, _⟩
    · exfalso
      have hj7 : j < 7 := by simpa using hlt
      have hx := preList_index n _ j hj7 hget
      match j, hx with
      | 0, hx =>
          simp [List.getD] at hx
          exact hsne hx
      | 1, hx => exact absurd hx (by simp [List.getD])
      | 2, hx => exact absurd hx (by simp [List.getD])
      | 3, hx => exact absurd hx (by simp [List.getD])
      | 4, hx => exact absurd hx (by simp [List.getD])
      | 5, hx => exact absurd hx (by simp [List.getD])
      | 6, hx => exact absurd hx (by simp [List.getD])
    · have h7 : 7 ≤ j := by simpa using hge
      omega

/-- Witness for claim C6 at a concrete flow object A with successor B: the
begin entry precedes the handler, the end entry follows the handler
completion, and the successor token placement follows the end entry. -/
theorem claim_C6_witness :
    ("A" : String) ∉ (["B"] : List String) ∧
    OccursBefore (EngineAction.histBegin "A") (EngineAction.runHandler "A")
      (flowObjectStepTrace "A" ["B"]) ∧
    OccursBefore (EngineAction.histEnd "A") (EngineAction.createToken "B")
      (flowObjectStepTrace "A" ["B"]) :=
  ⟨by decide, (claim_C6 "A" ["B"] (by decide)).1,
   (claim_C6 "A" ["B"] (by decide)).2.2 "B" (List.mem_singleton.mpr rfl)⟩

end Bpmn
